import Mathlib

/-!
# Formal model of the bastet/panthera developer-tooling orchestrator

Shallow embedding of the Python sources under `src/src/panthera/`
(`tools/tool.py`, `tools/exceptions.py`, `runner.py`, `config.py`,
`reporting/console.py`).  Pure functions are translated to Lean functions;
stateful methods become explicit state passing; code that can raise
exceptions returns `Except`.  External effects (the file system, the
`gitignore_parser` third-party library, subprocess execution) are modelled
as explicit oracle parameters.
-/

/-! ## Status enum (tools/tool.py, lines 30-47)

`Status` is a Python `enum.Enum` with members declared in the order
PASSED, FIXED, WARNING, FAILED, ERROR.  `_STATUS_ORDERING` maps each
member to its declaration index, and `__lt__`, `__gt__`, `__ge__` are
defined through that index.  Python does not synthesise `__le__`.
-/

inductive Status where
  | passed
  | fixed
  | warning
  | failed
  | error
deriving DecidableEq, Repr, Fintype

/-- `_STATUS_ORDERING[s]`: the declaration index of the enum member. -/
def statusIdx : Status → Nat
  | .passed => 0
  | .fixed => 1
  | .warning => 2
  | .failed => 3
  | .error => 4

/-- `Status.__lt__`: `_STATUS_ORDERING[self] < _STATUS_ORDERING[other]`. -/
def statusLt (a b : Status) : Bool := statusIdx a < statusIdx b

/-- `Status.__gt__`: `_STATUS_ORDERING[self] > _STATUS_ORDERING[other]`. -/
def statusGt (a b : Status) : Bool := statusIdx a > statusIdx b

/-- `Status.__ge__`: `other == self or self.__gt__(other)`. -/
def statusGe (a b : Status) : Bool := b == a || statusGt a b

/-- Python's builtin `max` over a non-empty sequence: keeps the current
maximum and replaces it whenever a later item compares greater (`>`).
Used for `max(annotation_levels)` and `max(issue.status for ...)`. -/
def pyMaxStatus (x : Status) (xs : List Status) : Status :=
  xs.foldl (fun m y => if statusGt y m then y else m) x

/-- C10: The comparison operators defined on Status implement the strict
total order PASSED < FIXED < WARNING < FAILED < ERROR (the declaration
order): for every pair of statuses `a` and `b` exactly one of `a < b`,
`a = b`, `b < a` holds, `a > b` holds exactly when `b < a`, and `a >= b`
holds exactly when `a = b` or `a > b`. -/
theorem status_comparisons_strict_total_order :
    (∀ a b : Status,
        (statusLt a b = true ∧ a ≠ b ∧ statusLt b a = false) ∨
        (statusLt a b = false ∧ a = b ∧ statusLt b a = false) ∨
        (statusLt a b = false ∧ a ≠ b ∧ statusLt b a = true)) ∧
    (∀ a b : Status, statusGt a b = statusLt b a) ∧
    (∀ a b : Status, statusGe a b = true ↔ a = b ∨ statusGt a b = true) ∧
    (statusLt .passed .fixed ∧ statusLt .fixed .warning ∧
      statusLt .warning .failed ∧ statusLt .failed .error) := by
  refine ⟨?_, ?_, ?_, by decide⟩
  · decide
  · decide
  · decide

/-! ## Paths (a model of `pathlib.Path` as used by this code base)

A path is a flag saying whether it is anchored at the filesystem root,
plus the list of its name components.  The code under verification never
uses `..` or symlink resolution on the paths it manipulates, so plain
component lists are a faithful model of `pathlib.PurePath` equality,
`parents`, `is_relative_to`, `name`, `parent` and the `/` operator.
-/

structure PyPath where
  isAbs : Bool
  comps : List String
deriving DecidableEq, Repr

/-- `path / name` for a single extra component. -/
def PyPath.child (p : PyPath) (n : String) : PyPath :=
  ⟨p.isAbs, p.comps ++ [n]⟩

/-- `path.name`: the final component (`''` for the anchor itself). -/
def PyPath.name (p : PyPath) : String := p.comps.getLast?.getD ""

/-- `path.parent`: drop the final component; the anchor is its own parent. -/
def PyPath.parent (p : PyPath) : PyPath :=
  if p.comps = [] then p else ⟨p.isAbs, p.comps.dropLast⟩

/-- `path.absolute()`: prepend the current working directory when the path
is not already anchored (no normalisation, as in `pathlib`). -/
def PyPath.absolute (cwd : PyPath) (p : PyPath) : PyPath :=
  if p.isAbs then p else ⟨true, cwd.comps ++ p.comps⟩

/-- `a in path.parents`: `a` is a proper ancestor of `path`. -/
def PyPath.isParentOf (a p : PyPath) : Bool :=
  a.isAbs == p.isAbs && a.comps.isPrefixOf p.comps && a.comps ≠ p.comps

/-- `path.is_relative_to(base)`: `base` is an ancestor of (or equal to) `path`. -/
def PyPath.relTo (p base : PyPath) : Bool :=
  p.isAbs == base.isAbs && base.comps.isPrefixOf p.comps

/-! ## Exceptions (tools/exceptions.py) and annotations (tools/tool.py)

`ToolError` is the base class of errors a tool reports; `ProcessError`
derives from both `subprocess.CalledProcessError` and `ToolError` and
carries the exit code and command.  Only the constructor data relevant
to the verified claims is modelled.
-/

inductive ToolErr where
  | processError (exitCode : Int) (cmd : List String)
  | other (msg : String)
deriving DecidableEq, Repr

/-- Python exceptions that escape a function, for `Except`-style modelling.
`InvalidDomainError` derives from `ValueError`; tuple-unpacking failures
raise a plain `ValueError`. -/
inductive PyErr where
  | valueError (msg : String)
  | otherError (msg : String)
deriving DecidableEq, Repr

/-- `str.strip()` with no argument: remove leading and trailing
whitespace.  Modelled directly on the character list of the string. -/
def pyStrip (s : String) : String :=
  ⟨((s.data.dropWhile Char.isWhitespace).reverse.dropWhile Char.isWhitespace).reverse⟩

/-- A normalized annotation record (`Annotation` dataclass,
tools/tool.py lines 232-349).  The Python `tool` attribute is *not*
assigned by `__init__`; it is attached later by the report handler
(`reporting/abc.py`, not part of the sources), so it is modelled as an
`Option`, `none` meaning "not yet assigned".  The dataclass-generated
`__eq__` compares all seven fields, which is structural equality here. -/
structure Annot where
  status : Status
  source : PyPath × Int × Int
  tool : Option String
  code : String
  message : String
  description : Option String
  diff : Option (List String)
deriving DecidableEq, Repr

/-- The `source` argument of `Annotation.__init__`:
`tuple[Path, int | None, int | None] | Path | None`. -/
inductive AnnSource where
  | noSource
  | pathOnly (p : PyPath)
  | triple (p : PyPath) (line : Option Int) (col : Option Int)
deriving DecidableEq, Repr

/-- Python `x or 0` for `x : int | None` (`None` and `0` are falsy). -/
def pyIntOr0 (x : Option Int) : Int :=
  match x with
  | none => 0
  | some v => if v = 0 then 0 else v

/-- `Annotation._normalise_source` (tools/tool.py lines 246-257); `_CWD`
is the class attribute set from the project root. -/
def normaliseSource (cwdRoot : PyPath) (source : AnnSource) : PyPath × Int × Int :=
  match source with
  | .noSource => (cwdRoot, 0, 0)
  | .pathOnly p => (PyPath.absolute cwdRoot p, 0, 0)
  | .triple p line col => (PyPath.absolute cwdRoot p, pyIntOr0 line, pyIntOr0 col)

/-- `Annotation.__init__` (tools/tool.py lines 268-281).  Sets `status`,
the normalised `source`, stripped `code` and `message`, the stripped
`description` when one was given and truthy (`None` otherwise), and
`diff = None`.  The `tool` attribute is left unassigned (`none`). -/
def annotInit (cwdRoot : PyPath) (status : Status) (source : AnnSource)
    (code message : String) (description : Option String) : Annot :=
  { status := status
    source := normaliseSource cwdRoot source
    tool := none
    code := pyStrip code
    message := pyStrip message
    description :=
      match description with
      | none => none
      | some d => if d = "" then none else some (pyStrip d)
    diff := none }

/-- C5: Every constructed Annotation is normalized: a None source becomes
(project root, 0, 0); a bare path becomes (that path made absolute, 0, 0);
a (path, line, column) triple becomes (absolute path, line or 0,
column or 0); the stored code and message equal the given strings with
surrounding whitespace stripped; and description is None exactly when no
non-empty description was given, otherwise the stripped description. -/
theorem annot_init_normalizes (cwdRoot : PyPath) (status : Status)
    (source : AnnSource) (code message : String) (description : Option String) :
    (annotInit cwdRoot status source code message description).status = status ∧
    (source = .noSource →
      (annotInit cwdRoot status source code message description).source = (cwdRoot, 0, 0)) ∧
    (∀ p, source = .pathOnly p →
      (annotInit cwdRoot status source code message description).source
        = (PyPath.absolute cwdRoot p, 0, 0)) ∧
    (∀ p line col, source = .triple p line col →
      (annotInit cwdRoot status source code message description).source
        = (PyPath.absolute cwdRoot p, pyIntOr0 line, pyIntOr0 col)) ∧
    (annotInit cwdRoot status source code message description).code = pyStrip code ∧
    (annotInit cwdRoot status source code message description).message = pyStrip message ∧
    ((annotInit cwdRoot status source code message description).description = none ↔
      (description = none ∨ description = some "")) ∧
    (∀ d, description = some d → d ≠ "" →
      (annotInit cwdRoot status source code message description).description
        = some (pyStrip d)) := by
  refine ⟨rfl, ?_, ?_, ?_, rfl, rfl, ?_, ?_⟩
  · rintro rfl; rfl
  · rintro p rfl; rfl
  · rintro p line col rfl; rfl
  · cases description with
    | none => simp [annotInit]
    | some d =>
        by_cases hd : d = "" <;> simp [annotInit, hd]
  · rintro d rfl hd
    simp [annotInit, hd]

/-- Witness for C5 at a concrete input: the triple branch, the stripping
of code and message, and the stripping of the description. -/
theorem annot_init_normalizes_witness :
    (annotInit ⟨true, ["repo"]⟩ Status.warning
        (AnnSource.triple ⟨false, ["pkg", "a.py"]⟩ (some 3) none)
        " E101 " "bad thing " (some " extra info ")).source
      = (⟨true, ["repo", "pkg", "a.py"]⟩, 3, 0) ∧
    (annotInit ⟨true, ["repo"]⟩ Status.warning
        (AnnSource.triple ⟨false, ["pkg", "a.py"]⟩ (some 3) none)
        " E101 " "bad thing " (some " extra info ")).code = "E101" ∧
    (annotInit ⟨true, ["repo"]⟩ Status.warning
        (AnnSource.triple ⟨false, ["pkg", "a.py"]⟩ (some 3) none)
        " E101 " "bad thing " (some " extra info ")).description
      = some "extra info" := by
  have h := annot_init_normalizes ⟨true, ["repo"]⟩ Status.warning
      (AnnSource.triple ⟨false, ["pkg", "a.py"]⟩ (some 3) none)
      " E101 " "bad thing " (some " extra info ")
  refine ⟨?_, ?_, ?_⟩
  · have h2 := h.2.2.2.1 ⟨false, ["pkg", "a.py"]⟩ (some 3) none rfl
    rw [h2]; decide
  · rw [h.2.2.2.2.1]; decide
  · have h2 := h.2.2.2.2.2.2.2 " extra info " rfl (by decide)
    rw [h2]; decide

/-! ## Tools (tools/tool.py) and tool results

`ToolDomain` is a `StrEnum` with members FORMAT, LINT, AUDIT.  A concrete
tool subclass contributes its class name, its set of domains, its
acceptable exit codes and its command line; these class-level data are
modelled as a record, and a `Tool` instance pairs them with the domain
the instance was created for and the paths it was given.
-/

inductive ToolDomain where
  | format
  | lint
  | audit
deriving DecidableEq, Repr, Fintype

/-- `PathRepo` (tools/tool.py lines 352-371): the frozen path collections
produced by the gatherer. -/
structure PathRepoM where
  rootPath : PyPath
  pythonPath : List PyPath
  coveragePath : List PyPath
  pythonFiles : List PyPath
  pythonModulePath : List PyPath
deriving DecidableEq, Repr

/-- Class-level data of a concrete `Tool` subclass: `__name__`,
`domains()`, `acceptable_exit_codes()` and the `get_command()` output
(the latter two abstracted as data). -/
structure ToolClass where
  name : String
  domains : List ToolDomain
  acceptableExitCodes : List Int
  command : List String
deriving DecidableEq, Repr

/-- A constructed `Tool` instance: its class data, the `_domain` it was
instantiated for and the `_paths` it was given. -/
structure ToolInst where
  cls : ToolClass
  domain : ToolDomain
  paths : PathRepoM
deriving DecidableEq, Repr

/-- First-occurrence deduplication: the iteration order of the keys of a
Python `dict`/`Counter`/`set` built by successive insertion. -/
def dedupFirst {α : Type} [DecidableEq α] (l : List α) : List α :=
  l.foldl (fun acc a => if a ∈ acc then acc else acc ++ [a]) []

/-- `Counter(annotation.status for annotation in annotations)` as an
insertion-ordered association list. -/
def statusCounts (anns : List Annot) : List (Status × Nat) :=
  (dedupFirst (anns.map (·.status))).map
    (fun s => (s, (anns.map (·.status)).count s))

/-- `ToolResult` named tuple (tools/tool.py lines 50-59). -/
structure ToolResultRec where
  success : Status
  exitCode : Int
  annotationCounts : List (Status × Nat)
deriving DecidableEq, Repr

/-- Python `dict` assignment `d[k] = v`: replace in place, or append. -/
def dictSet {β : Type} : List (ToolInst × β) → ToolInst → β → List (ToolInst × β)
  | [], k, v => [(k, v)]
  | (k0, v0) :: rest, k, v =>
      if k0 = k then (k0, v) :: rest else (k0, v0) :: dictSet rest k v

/-- `ToolResults` (tools/tool.py lines 168-229).  `results` is a `dict`
keyed by the `Tool` object; Python keys it by object identity, and the
runner only ever records freshly constructed (hence distinct) instances,
which structural keys model faithfully. -/
structure ToolResultsSt where
  success : Bool
  anns : List Annot
  excs : List ToolErr
  results : List (ToolInst × ToolResultRec)
deriving DecidableEq, Repr

/-- `ToolResults.__init__`: the empty result set. -/
def toolResultsInit : ToolResultsSt :=
  { success := true, anns := [], excs := [], results := [] }

/-- The exception-list extension step of `ToolResults.record`:
`if exit_code not in tool.acceptable_exit_codes(): exceptions.append(ProcessError(exit_code, tool.get_command()))`. -/
def recordExceptions (tool : ToolInst) (excs : List ToolErr) (exitCode : Int) :
    List ToolErr :=
  if exitCode ∈ tool.cls.acceptableExitCodes then excs
  else excs ++ [ToolErr.processError exitCode tool.cls.command]

/-- The status computation of `ToolResults.record`: `ERROR` when the
(extended) exception list is non-empty, else `max(annotation_levels)`
over the `Counter` keys when there are annotations, else `PASSED`.
The `Counter` keys are the statuses in first-occurrence order; they are
empty exactly when the annotation list is empty. -/
def recordStatus (anns : List Annot) (excs2 : List ToolErr) : Status :=
  if excs2 ≠ [] then Status.error
  else
    match dedupFirst (anns.map (·.status)) with
    | [] => Status.passed
    | k :: krest => pyMaxStatus k krest

/-- `ToolResults.record` (tools/tool.py lines 200-229) as a state step. -/
def toolResultsRecord (st : ToolResultsSt) (tool : ToolInst) (anns : List Annot)
    (excs : List ToolErr) (exitCode : Int) : ToolResultsSt :=
  let excs2 := recordExceptions tool excs exitCode
  let status := recordStatus anns excs2
  { success := st.success && statusLt status Status.failed
    anns := st.anns ++ anns
    excs := st.excs ++ excs2
    results := dictSet st.results tool ⟨status, exitCode, statusCounts anns⟩ }

/-- The argument bundle of one `ToolResults.record` call. -/
structure RecordCall where
  tool : ToolInst
  anns : List Annot
  excs : List ToolErr
  exitCode : Int
deriving DecidableEq, Repr

/-- A sequence of `record` calls applied to a fresh `ToolResults`. -/
def runRecords (calls : List RecordCall) : ToolResultsSt :=
  calls.foldl (fun st c => toolResultsRecord st c.tool c.anns c.excs c.exitCode)
    toolResultsInit

/-- The status that a given `record` call stores for its tool. -/
def callStatus (c : RecordCall) : Status :=
  recordStatus c.anns (recordExceptions c.tool c.excs c.exitCode)

/-! ### Supporting lemmas on `dedupFirst`, `pyMaxStatus` and `runRecords`. -/

theorem dedupFirst_append_singleton {α : Type} [DecidableEq α] (l : List α) (a : α) :
    dedupFirst (l ++ [a])
      = if a ∈ dedupFirst l then dedupFirst l else dedupFirst l ++ [a] := by
  unfold dedupFirst
  rw [List.foldl_append]
  rfl

theorem mem_dedupFirst {α : Type} [DecidableEq α] (l : List α) (a : α) :
    a ∈ dedupFirst l ↔ a ∈ l := by
  induction l using List.reverseRecOn with
  | nil => simp [dedupFirst]
  | append_singleton l b ih =>
      rw [dedupFirst_append_singleton]
      by_cases hb : b ∈ dedupFirst l
      · simp only [if_pos hb]
        constructor
        · intro h; exact List.mem_append_left _ (ih.mp h)
        · intro h
          rcases List.mem_append.mp h with h | h
          · exact ih.mpr h
          · simp only [List.mem_singleton] at h
            subst h; exact hb
      · simp only [if_neg hb, List.mem_append, List.mem_singleton, ih]

theorem dedupFirst_eq_nil_iff {α : Type} [DecidableEq α] (l : List α) :
    dedupFirst l = [] ↔ l = [] := by
  induction l using List.reverseRecOn with
  | nil => simp [dedupFirst]
  | append_singleton l b ih =>
      rw [dedupFirst_append_singleton]
      by_cases hb : b ∈ dedupFirst l
      · simp only [if_pos hb]
        constructor
        · intro h
          rw [h] at hb; cases hb
        · intro h
          rcases List.append_eq_nil.mp h with ⟨h1, h2⟩
          cases h2
      · simp only [if_neg hb]
        constructor
        · intro h
          rcases List.append_eq_nil.mp h with ⟨h1, h2⟩
          cases h2
        · intro h
          rcases List.append_eq_nil.mp h with ⟨h1, h2⟩
          cases h2

theorem nodup_dedupFirst {α : Type} [DecidableEq α] (l : List α) :
    (dedupFirst l).Nodup := by
  induction l using List.reverseRecOn with
  | nil => simp [dedupFirst]
  | append_singleton l b ih =>
      rw [dedupFirst_append_singleton]
      by_cases hb : b ∈ dedupFirst l
      · simpa [hb] using ih
      · simp only [if_neg hb]
        refine List.Nodup.append ih (List.nodup_singleton b) ?_
        intro a ha hab
        exact hb (List.mem_singleton.mp hab ▸ ha)

theorem pyMaxStatus_mem (x : Status) (xs : List Status) :
    pyMaxStatus x xs ∈ x :: xs := by
  induction xs generalizing x with
  | nil => simp [pyMaxStatus]
  | cons y ys ih =>
      show pyMaxStatus (if statusGt y x then y else x) ys ∈ x :: y :: ys
      by_cases h : statusGt y x = true
      · rw [if_pos h]
        rcases List.mem_cons.mp (ih y) with h1 | h1
        · rw [h1]; simp
        · simp [h1]
      · rw [if_neg h]
        rcases List.mem_cons.mp (ih x) with h1 | h1
        · rw [h1]; simp
        · simp [h1]

theorem pyMaxStatus_ge (x : Status) (xs : List Status) :
    ∀ y ∈ x :: xs, statusGe (pyMaxStatus x xs) y = true := by
  have hrefl : ∀ a : Status, statusGe a a = true := by decide
  have hgegt : ∀ a b : Status, statusGt a b = false → statusGe b a = true := by decide
  have hgetrans : ∀ r a b : Status,
      statusGe r a = true → statusGe a b = true → statusGe r b = true := by decide
  have hgtge : ∀ a b : Status, statusGt a b = true → statusGe a b = true := by decide
  induction xs generalizing x with
  | nil =>
      intro y hy
      simp only [List.mem_cons, List.not_mem_nil, or_false] at hy
      subst hy
      simpa [pyMaxStatus] using hrefl y
  | cons z zs ih =>
      intro y hy
      show statusGe (pyMaxStatus (if statusGt z x then z else x) zs) y = true
      by_cases hzx : statusGt z x = true
      · rw [if_pos hzx]
        rcases List.mem_cons.mp hy with h1 | hy2
        · rw [h1]
          exact hgetrans _ z x (ih z z (List.mem_cons_self z zs)) (hgtge z x hzx)
        · rcases List.mem_cons.mp hy2 with h1 | hy3
          · rw [h1]
            exact ih z z (List.mem_cons_self z zs)
          · exact ih z y (List.mem_cons.mpr (Or.inr hy3))
      · rw [if_neg hzx]
        have hxz : statusGe x z = true := hgegt z x (by simpa using hzx)
        rcases List.mem_cons.mp hy with h1 | hy2
        · rw [h1]
          exact ih x x (List.mem_cons_self x zs)
        · rcases List.mem_cons.mp hy2 with h1 | hy3
          · rw [h1]
            exact hgetrans _ x z (ih x x (List.mem_cons_self x zs)) hxz
          · exact ih x y (List.mem_cons.mpr (Or.inr hy3))

/-- The overall success flag after a sequence of `record` calls is the
conjunction of "status strictly below FAILED" over the statuses computed
by the individual calls. -/
theorem runRecords_success_eq_all (calls : List RecordCall) :
    (runRecords calls).success
      = calls.all (fun c => statusLt (callStatus c) Status.failed) := by
  have aux : ∀ (cs : List RecordCall) (st : ToolResultsSt),
      (cs.foldl (fun st c => toolResultsRecord st c.tool c.anns c.excs c.exitCode)
          st).success
        = (st.success && cs.all (fun c => statusLt (callStatus c) Status.failed)) := by
    intro cs
    induction cs with
    | nil => intro st; simp
    | cons c rest ih =>
        intro st
        rw [List.foldl_cons, ih]
        show ((toolResultsRecord st c.tool c.anns c.excs c.exitCode).success
            && rest.all (fun c => statusLt (callStatus c) Status.failed)) = _
        have hstep : (toolResultsRecord st c.tool c.anns c.excs c.exitCode).success
            = (st.success && statusLt (callStatus c) Status.failed) := rfl
        rw [hstep, List.all_cons, Bool.and_assoc]
  exact aux calls toolResultsInit

/-- C2: For every call `ToolResults.record(tool, annotations, exceptions,
exit_code)`: if `exit_code` is not in `tool.acceptable_exit_codes()` a
`ProcessError` is appended to the exceptions; the recorded `ToolResult`
status is ERROR when the (possibly extended) exception list is non-empty,
otherwise the maximum status among the annotations when there are any,
otherwise PASSED; and after any sequence of `record` calls,
`ToolResults.success` is true exactly when every recorded tool's status
is strictly below FAILED. -/
theorem tool_results_record_spec :
    (∀ (tool : ToolInst) (excs : List ToolErr) (exitCode : Int),
        exitCode ∉ tool.cls.acceptableExitCodes →
        recordExceptions tool excs exitCode
          = excs ++ [ToolErr.processError exitCode tool.cls.command]) ∧
    (∀ (tool : ToolInst) (excs : List ToolErr) (exitCode : Int),
        exitCode ∈ tool.cls.acceptableExitCodes →
        recordExceptions tool excs exitCode = excs) ∧
    (∀ (st : ToolResultsSt) (tool : ToolInst) (anns : List Annot)
        (excs : List ToolErr) (exitCode : Int),
        (toolResultsRecord st tool anns excs exitCode).results
          = dictSet st.results tool
              ⟨recordStatus anns (recordExceptions tool excs exitCode), exitCode,
                statusCounts anns⟩) ∧
    (∀ (anns : List Annot) (excs2 : List ToolErr),
        excs2 ≠ [] → recordStatus anns excs2 = Status.error) ∧
    (∀ anns : List Annot, anns ≠ [] →
        recordStatus anns [] ∈ anns.map (fun a => a.status) ∧
        ∀ s ∈ anns.map (fun a => a.status),
          statusGe (recordStatus anns []) s = true) ∧
    (recordStatus [] [] = Status.passed) ∧
    (∀ calls : List RecordCall,
        (runRecords calls).success
          = calls.all (fun c => statusLt (callStatus c) Status.failed)) := by
  refine ⟨?_, ?_, ?_, ?_, ?_, ?_, runRecords_success_eq_all⟩
  · intro tool excs exitCode h
    unfold recordExceptions
    rw [if_neg h]
  · intro tool excs exitCode h
    unfold recordExceptions
    rw [if_pos h]
  · intro st tool anns excs exitCode
    rfl
  · intro anns excs2 h
    unfold recordStatus
    rw [if_pos h]
  · intro anns h
    have hmapne : anns.map (fun a => a.status) ≠ [] := by
      simpa using h
    have hdedupne : dedupFirst (anns.map (fun a => a.status)) ≠ [] := by
      intro hcontra
      exact hmapne ((dedupFirst_eq_nil_iff _).mp hcontra)
    obtain ⟨k, krest, hk⟩ := List.exists_cons_of_ne_nil hdedupne
    have hval : recordStatus anns [] = pyMaxStatus k krest := by
      unfold recordStatus
      rw [if_neg (by simp), hk]
    constructor
    · rw [hval]
      have := pyMaxStatus_mem k krest
      rw [← hk] at this
      exact (mem_dedupFirst _ _).mp this
    · intro s hs
      rw [hval]
      refine pyMaxStatus_ge k krest s ?_
      rw [← hk]
      exact (mem_dedupFirst _ _).mpr hs
  · rfl

/-- Witness for C2: a tool with acceptable exit codes `{0}` recording exit
code 2 gains a `ProcessError`; a sole WARNING annotation with no
exceptions records status WARNING (the maximum). -/
theorem tool_results_record_spec_witness :
    (recordExceptions
        ⟨⟨"MyPy", [ToolDomain.lint], [0], ["mypy"]⟩, ToolDomain.lint,
          ⟨⟨true, []⟩, [], [], [], []⟩⟩ [] 2
      = [ToolErr.processError 2 ["mypy"]]) ∧
    (statusGe
        (recordStatus
          [⟨Status.warning, (⟨true, []⟩, 0, 0), none, "c", "m", none, none⟩] [])
        Status.warning = true) := by
  constructor
  · exact tool_results_record_spec.1
      ⟨⟨"MyPy", [ToolDomain.lint], [0], ["mypy"]⟩, ToolDomain.lint,
        ⟨⟨true, []⟩, [], [], [], []⟩⟩ [] 2 (by decide)
  · exact (tool_results_record_spec.2.2.2.2.1
      [⟨Status.warning, (⟨true, []⟩, 0, 0), none, "c", "m", none, none⟩]
      (by simp)).2 Status.warning (by simp)

/-- C9: `ToolResults.success` is true on creation and is monotonically
non-increasing: once some record call stores a status at or above FAILED,
success is false and stays false under any further record calls. -/
theorem tool_results_success_monotone :
    toolResultsInit.success = true ∧
    (∀ calls more : List RecordCall,
        (runRecords calls).success = false →
        (runRecords (calls ++ more)).success = false) ∧
    (∀ (pre : List RecordCall) (c : RecordCall) (post : List RecordCall),
        statusGe (callStatus c) Status.failed = true →
        (runRecords (pre ++ c :: post)).success = false) := by
  have hnotlt : ∀ s : Status,
      statusGe s Status.failed = true → statusLt s Status.failed = false := by
    decide
  refine ⟨rfl, ?_, ?_⟩
  · intro calls more h
    rw [runRecords_success_eq_all] at h ⊢
    rw [List.all_append, h]
    rfl
  · intro pre c post h
    rw [runRecords_success_eq_all, List.all_append, List.all_cons,
      hnotlt _ h]
    simp

/-- Witness for C9: one record call with an unacceptable exit code (status
ERROR) makes the run unsuccessful. -/
theorem tool_results_success_monotone_witness :
    (runRecords
        [⟨⟨⟨"MyPy", [ToolDomain.lint], [0], ["mypy"]⟩, ToolDomain.lint,
            ⟨⟨true, []⟩, [], [], [], []⟩⟩, [], [], 2⟩]).success = false := by
  exact tool_results_success_monotone.2.2 []
    ⟨⟨⟨"MyPy", [ToolDomain.lint], [0], ["mypy"]⟩, ToolDomain.lint,
        ⟨⟨true, []⟩, [], [], [], []⟩⟩, [], [], 2⟩ [] (by decide)

/-! ## Tool construction (tools/tool.py lines 87-99, tools/exceptions.py)
and `ToolRunner.gather_tools` (runner.py lines 63-69). -/

/-- The `StrEnum` string value of a domain (used in the error message). -/
def ToolDomain.str : ToolDomain → String
  | .format => "Format"
  | .lint => "Lint"
  | .audit => "Audit"

/-- `InvalidDomainError.__init__`: a `ValueError` whose message is
"Invalid domain {domain} for {tool}". -/
def invalidDomainError (domain tool : String) : PyErr :=
  PyErr.valueError ("Invalid domain " ++ domain ++ " for " ++ tool)

/-- `Tool.__init__(domain, paths)`: raises `InvalidDomainError` when the
domain is not one of the class's `domains()`, otherwise stores `_domain`
and `_paths`. -/
def toolInit (cls : ToolClass) (domain : ToolDomain) (paths : PathRepoM) :
    Except PyErr ToolInst :=
  if domain ∈ cls.domains then Except.ok ⟨cls, domain, paths⟩
  else Except.error (invalidDomainError domain.str cls.name)

/-- `ToolRunner.gather_tools(domain, config)`: instantiate every available
tool class whose lowercased name is not in `config.skip_tools` and which
declares the requested domain. -/
def gatherTools (available : List ToolClass) (domain : ToolDomain)
    (skipTools : List String) (folders : PathRepoM) :
    List (Except PyErr ToolInst) :=
  (available.filter
      (fun cls => !(skipTools.contains cls.name.toLower)
        && cls.domains.contains domain)).map
    (fun cls => toolInit cls domain folders)

/-- C8: Constructing a Tool with a domain not in its class's `domains()`
raises `InvalidDomainError` (a ValueError); every successfully constructed
instance has its domain among its declared domains; and
`ToolRunner.gather_tools` only ever instantiates a tool for a domain the
tool declares, so all its instantiations succeed. -/
theorem tool_init_domain_invariant :
    (∀ (cls : ToolClass) (domain : ToolDomain) (paths : PathRepoM),
        domain ∉ cls.domains →
        toolInit cls domain paths
          = Except.error (invalidDomainError domain.str cls.name)) ∧
    (∀ (cls : ToolClass) (domain : ToolDomain) (paths : PathRepoM)
        (t : ToolInst),
        toolInit cls domain paths = Except.ok t →
        t.domain ∈ t.cls.domains ∧ t.cls = cls ∧ t.domain = domain) ∧
    (∀ (available : List ToolClass) (domain : ToolDomain)
        (skipTools : List String) (folders : PathRepoM),
        ∀ r ∈ gatherTools available domain skipTools folders,
          ∃ t : ToolInst,
            r = Except.ok t ∧ t.domain ∈ t.cls.domains) := by
  refine ⟨?_, ?_, ?_⟩
  · intro cls domain paths h
    unfold toolInit
    rw [if_neg h]
  · intro cls domain paths t h
    unfold toolInit at h
    by_cases hd : domain ∈ cls.domains
    · rw [if_pos hd] at h
      cases h
      exact ⟨hd, rfl, rfl⟩
    · rw [if_neg hd] at h
      cases h
  · intro available domain skipTools folders r hr
    unfold gatherTools at hr
    rcases List.mem_map.mp hr with ⟨cls, hcls, hEq⟩
    have hfilter := List.mem_filter.mp hcls
    have hdom : domain ∈ cls.domains := by
      have h2 := hfilter.2
      simp only [Bool.and_eq_true] at h2
      simpa using h2.2
    refine ⟨⟨cls, domain, folders⟩, ?_, hdom⟩
    rw [← hEq]
    unfold toolInit
    rw [if_pos hdom]

/-- Witness for C8: `Ruff` declares Format and Lint; constructing it for
Audit raises InvalidDomainError, while `gather_tools` for Lint yields a
successful instance. -/
theorem tool_init_domain_invariant_witness :
    (toolInit ⟨"Ruff", [ToolDomain.format, ToolDomain.lint], [0], ["ruff"]⟩
        ToolDomain.audit ⟨⟨true, []⟩, [], [], [], []⟩
      = Except.error (PyErr.valueError "Invalid domain Audit for Ruff")) ∧
    (∃ t : ToolInst,
        (Except.ok t : Except PyErr ToolInst) = Except.ok t ∧
        t.domain ∈ t.cls.domains) := by
  constructor
  · have h := tool_init_domain_invariant.1
      ⟨"Ruff", [ToolDomain.format, ToolDomain.lint], [0], ["ruff"]⟩
      ToolDomain.audit ⟨⟨true, []⟩, [], [], [], []⟩ (by decide)
    rw [h]
    rfl
  · have h := tool_init_domain_invariant.2.2
      [⟨"Ruff", [ToolDomain.format, ToolDomain.lint], [0], ["ruff"]⟩]
      ToolDomain.lint [] ⟨⟨true, []⟩, [], [], [], []⟩
      (toolInit ⟨"Ruff", [ToolDomain.format, ToolDomain.lint], [0], ["ruff"]⟩
        ToolDomain.lint ⟨⟨true, []⟩, [], [], [], []⟩)
      (by simp [gatherTools])
    rcases h with ⟨t, hok, hdom⟩
    exact ⟨t, rfl, hdom⟩

/-! ## `ToolRunner.run` (runner.py lines 71-132)

The subprocess-facing part of `run` is modelled by an oracle `wait` that
says how `asyncio.wait_for(process.wait(), timeout=self.timeout)` ends:
normal completion, `TimeoutError`, or another exception.  In the timeout
and exception branches the code kills the process and awaits it; the
process's `returncode` visible after that is carried by the outcome.
-/

inductive WaitOutcome where
  | completed (returncode : Option Int)
  | timedOut (postKillReturncode : Option Int)
  | raised (e : PyErr) (postKillReturncode : Option Int)

/-- `ToolRunner.timeout` class attribute (runner.py line 39). -/
def toolRunnerTimeout : Nat := 30

/-- What one `ToolRunner.run` call produces: either the returned tuple
`(command, return_code, annotations, exceptions)` or a re-raised
exception, together with whether `process.kill()` was called. -/
structure RunOutcome where
  result : Except PyErr (List String × Int × List Annot × List ToolErr)
  killed : Bool
deriving Repr

/-- The wait/return portion of `ToolRunner.run` (runner.py lines 113-132):
wait for the process bounded by `self.timeout`; on `TimeoutError` kill and
await the process and fall through; on any other exception kill, await and
re-raise; then return the command, the process return code (1 when the
return code is None) and the reporter's collected annotations and
exceptions. -/
def toolRunnerRun (command : List String) (reporterAnns : List Annot)
    (reporterExcs : List ToolErr) (wait : Nat → WaitOutcome) : RunOutcome :=
  match wait toolRunnerTimeout with
  | .completed rc => ⟨Except.ok (command, rc.getD 1, reporterAnns, reporterExcs), false⟩
  | .timedOut rc => ⟨Except.ok (command, rc.getD 1, reporterAnns, reporterExcs), true⟩
  | .raised e _ => ⟨Except.error e, true⟩

/-- C3: `ToolRunner.run` bounds the subprocess wait by the 30-second
timeout; on timeout the process is killed and awaited and `run` still
returns normally with the command, collected annotations and exceptions,
the exit code being the process return code or 1 when there is none; a
non-timeout exception during the wait kills the process and is re-raised. -/
theorem tool_runner_run_timeout_spec :
    toolRunnerTimeout = 30 ∧
    (∀ (cmd : List String) (anns : List Annot) (excs : List ToolErr)
        (wait : Nat → WaitOutcome) (rc : Int),
        wait toolRunnerTimeout = .timedOut (some rc) →
        toolRunnerRun cmd anns excs wait
          = ⟨Except.ok (cmd, rc, anns, excs), true⟩) ∧
    (∀ (cmd : List String) (anns : List Annot) (excs : List ToolErr)
        (wait : Nat → WaitOutcome),
        wait toolRunnerTimeout = .timedOut none →
        toolRunnerRun cmd anns excs wait
          = ⟨Except.ok (cmd, 1, anns, excs), true⟩) ∧
    (∀ (cmd : List String) (anns : List Annot) (excs : List ToolErr)
        (wait : Nat → WaitOutcome) (e : PyErr) (rc : Option Int),
        wait toolRunnerTimeout = .raised e rc →
        toolRunnerRun cmd anns excs wait = ⟨Except.error e, true⟩) ∧
    (∀ (cmd : List String) (anns : List Annot) (excs : List ToolErr)
        (wait : Nat → WaitOutcome) (rc : Int),
        wait toolRunnerTimeout = .completed (some rc) →
        toolRunnerRun cmd anns excs wait
          = ⟨Except.ok (cmd, rc, anns, excs), false⟩) := by
  refine ⟨rfl, ?_, ?_, ?_, ?_⟩
  · intro cmd anns excs wait rc h
    unfold toolRunnerRun
    rw [h]
    rfl
  · intro cmd anns excs wait h
    unfold toolRunnerRun
    rw [h]
    rfl
  · intro cmd anns excs wait e rc h
    unfold toolRunnerRun
    rw [h]
  · intro cmd anns excs wait rc h
    unfold toolRunnerRun
    rw [h]
    rfl

/-- Witness for C3: a run whose wait times out with the killed process
showing no return code returns exit code 1. -/
theorem tool_runner_run_timeout_spec_witness :
    toolRunnerRun ["ruff", "check"] [] [] (fun _ => WaitOutcome.timedOut none)
      = ⟨Except.ok (["ruff", "check"], 1, [], []), true⟩ := by
  exact tool_runner_run_timeout_spec.2.2.1 ["ruff", "check"] [] []
    (fun _ => WaitOutcome.timedOut none) rfl

/-! ## `PantheraConfiguration` (config.py lines 28-130)

`__init__` receives the parsed argparse namespace.  Everything before the
last line of the constructor only reads `args.root` and filesystem/config
oracles; the final statement is
`self.skip_tools, self.skip_domains = set()`, a tuple-unpacking of an
empty set into two targets.
-/

/-- The argparse namespace produced by `PantheraConfiguration.add_options`
(config.py lines 30-62): `--root` (optional string), `--skip`,
`--disable`, `--exclude`, `--reporter` (each `None` or a list), and the
positional `folders`. -/
structure ArgsNamespace where
  root : Option String
  skip : Option (List String)
  disable : Option (List String)
  exclude : Option (List String)
  reporter : Option (List String)
  folders : List String
deriving DecidableEq, Repr

/-- Truthiness of `args.root` (`None` and the empty string are falsy). -/
def pyTruthyOptStr (x : Option String) : Bool :=
  match x with
  | none => false
  | some s => s ≠ ""

/-- A TOML value as far as `_config_list` distinguishes them. -/
inductive TomlValue where
  | strVal (s : String)
  | listVal (items : List String)
  | otherVal
deriving DecidableEq, Repr

/-- `PantheraConfiguration._config_list` (config.py lines 115-126):
the configured value when present and a list, the default otherwise. -/
def configList (config : List (String × TomlValue)) (key : String)
    (dflt : List String) : List String :=
  match config.lookup key with
  | none => dflt
  | some (.listVal items) => items
  | some _ => dflt

/-- Oracles for the external effects of the constructor: `Path().resolve()`,
`_find_pyproject`, `Path.cwd()`, `_load_config` and
`PathGatherer(...).gather` (its result as a function of the two filters). -/
structure ConfigOracles where
  resolvedCwd : PyPath
  foundPyproject : Option PyPath
  cwd : PyPath
  loadedConfig : List (String × TomlValue)
  gatherResult : List String → List String → PathRepoM

/-- The attributes `PantheraConfiguration.__init__` would have to
populate. -/
structure PantheraConfigurationSt where
  rootDir : PyPath
  config : List (String × TomlValue)
  folders : PathRepoM
  reporters : List String
  skipTools : List String
  skipDomains : List ToolDomain
deriving Repr

/-- Python iterable unpacking `a, b = xs` into exactly two targets. -/
def pyUnpack2 {α : Type} (xs : List α) : Except PyErr (α × α) :=
  match xs with
  | [] => Except.error
      (PyErr.valueError "not enough values to unpack (expected 2, got 0)")
  | [_] => Except.error
      (PyErr.valueError "not enough values to unpack (expected 2, got 1)")
  | [a, b] => Except.ok (a, b)
  | _ => Except.error (PyErr.valueError "too many values to unpack (expected 2)")

/-- `PantheraConfiguration.__init__` (config.py lines 74-99): pick the
root directory from `args.root` or auto-detection, load the config file,
compute the source and coverage filters, gather the folders, set
`reporters`, and finally execute
`self.skip_tools, self.skip_domains = set()` — unpacking the empty set.
The empty set has no elements, so the unpacked element type is `Empty`. -/
def pantheraConfigurationInit (o : ConfigOracles) (args : ArgsNamespace) :
    Except PyErr PantheraConfigurationSt :=
  let rootDir := if pyTruthyOptStr args.root then o.resolvedCwd
    else o.foundPyproject.getD o.cwd
  let config := o.loadedConfig
  let pypathFilter := configList config "sources" ["src", "test"]
  let coverageFilter := configList config "coverage_ignore" ["test"]
  let folders := o.gatherResult pypathFilter coverageFilter
  let reporters := ["AnnotationReporter"]
  match pyUnpack2 ([] : List Empty) with
  | Except.error e => Except.error e
  | Except.ok (a, _) =>
      let _ := rootDir
      let _ := folders
      let _ := reporters
      a.elim

/-- C1 (the code contradicts the claim): `PantheraConfiguration.__init__`
never returns normally — its last statement unpacks `set()` (zero
elements) into the two targets `skip_tools` and `skip_domains`, raising
`ValueError` for every command-line namespace and every config file; the
`--skip`, `--disable` and `--reporter` values are never even read
(the constructor's result depends on nothing but `args.root`). -/
theorem panthera_configuration_init_always_raises :
    (∀ (o : ConfigOracles) (args : ArgsNamespace),
        pantheraConfigurationInit o args
          = Except.error (PyErr.valueError
              "not enough values to unpack (expected 2, got 0)")) ∧
    (∀ (o : ConfigOracles) (args args' : ArgsNamespace),
        args.root = args'.root →
        pantheraConfigurationInit o args = pantheraConfigurationInit o args') := by
  constructor
  · intro o args
    rfl
  · intro o args args' h
    unfold pantheraConfigurationInit
    rw [h]

/-- Witness for C1: a namespace that passes `--skip pylint` (and nothing
else) still gets the ValueError. -/
theorem panthera_configuration_init_always_raises_witness :
    pantheraConfigurationInit
        ⟨⟨true, []⟩, none, ⟨true, []⟩, [], fun _ _ => ⟨⟨true, []⟩, [], [], [], []⟩⟩
        ⟨none, some ["pylint"], none, none, none, []⟩
      = Except.error (PyErr.valueError
          "not enough values to unpack (expected 2, got 0)") := by
  exact panthera_configuration_init_always_raises.1
    ⟨⟨true, []⟩, none, ⟨true, []⟩, [], fun _ _ => ⟨⟨true, []⟩, [], [], [], []⟩⟩
    ⟨none, some ["pylint"], none, none, none, []⟩

/-! ## `GitHubReporter.group_issues` (reporting/console.py lines 218-264)

The grouping dictionary preserves key insertion order (Python dicts do);
the per-key `set[Annotation]` deduplicates by the dataclass equality and
is modelled as an insertion-ordered duplicate-free list.
-/

/-- A decimal digit character. -/
def natDigitChar (d : Nat) : Char := Char.ofNat (48 + d)

/-- Decimal digits of `n`, most significant first, in front of `acc`;
structural recursion on a fuel argument (`fuel ≥ n` suffices, since the
number of digits of `n` is at most `n` for positive `n`). -/
def natReprAux : Nat → Nat → List Char → List Char
  | 0, _, acc => acc
  | fuel + 1, n, acc =>
      if n = 0 then acc
      else natReprAux fuel (n / 10) (natDigitChar (n % 10) :: acc)

/-- The decimal rendering of a Python `int` (as in `f"{len(issues)}"`). -/
def natRepr (n : Nat) : String :=
  if n = 0 then "0" else ⟨natReprAux n n []⟩

/-- `textwrap.indent(text, '  ')`: prefix every line that is not
whitespace-only with two spaces. -/
def indentTwo (s : String) : String :=
  String.intercalate "\n"
    ((s.splitOn "\n").map (fun l => if pyStrip l = "" then l else "  " ++ l))

/-- `GitHubReporter.format_sub_issue` (console.py lines 251-264).  The
`issue.tool.name` attribute access is modelled by `getD ""`; the report
handler assigns `tool` before annotations reach a reporter. -/
def formatSubIssue (issue : Annot) : String :=
  let header := "- " ++ issue.tool.getD "" ++ " [" ++ issue.code ++ "] "
    ++ issue.message
  match issue.description with
  | none => header
  | some d =>
      if d = "" then header
      else header ++ "\n" ++ indentTwo (pyStrip issue.message)

/-- `grouping.setdefault(annotation.source, set()).add(annotation)`:
append a new (source, {annotation}) entry, or add the annotation to the
existing entry's set unless an equal one is already present. -/
def groupInsert :
    List ((PyPath × Int × Int) × List Annot) → Annot →
      List ((PyPath × Int × Int) × List Annot)
  | [], a => [(a.source, [a])]
  | (s, l) :: rest, a =>
      if s = a.source then (s, if a ∈ l then l else l ++ [a]) :: rest
      else (s, l) :: groupInsert rest a

/-- The grouping loop of `group_issues` (console.py lines 229-236):
annotations whose status is below WARNING are dropped, the rest are
grouped by source. -/
def buildGroups (anns : List Annot) :
    List ((PyPath × Int × Int) × List Annot) :=
  anns.foldl
    (fun g a => if statusLt a.status Status.warning then g else groupInsert g a)
    []

/-- The aggregate annotation built for a multi-entry group
(console.py lines 245-249): maximum status of the group, title
"<N> issues on this line", the formatted sub-issues as description. -/
def aggregateAnn (cwdRoot : PyPath) (src : PyPath × Int × Int)
    (issues : List Annot) : Annot :=
  let status :=
    match issues.map (fun a => a.status) with
    | [] => Status.passed
    | s :: rest => pyMaxStatus s rest
  let title := natRepr issues.length ++ " issues on this line"
  let message := String.intercalate "\n\n" (issues.map formatSubIssue)
  annotInit cwdRoot status (.triple src.1 (some src.2.1) (some src.2.2))
    "group" title (some message)

/-- `GitHubReporter.group_issues` (console.py lines 218-249): yield the
single annotation of singleton groups unchanged, and one aggregate
annotation per multi-entry group.  (Groups are never empty, so the `[]`
branch of `aggregateAnn` is unreachable.) -/
def groupIssues (cwdRoot : PyPath) (anns : List Annot) : List Annot :=
  (buildGroups anns).map (fun g =>
    match g.2 with
    | [a] => a
    | issues => aggregateAnn cwdRoot g.1 issues)

/-- The annotations `group_issues` does not drop: status at or above
WARNING. -/
def keptAnns (anns : List Annot) : List Annot :=
  anns.filter (fun a => !(statusLt a.status Status.warning))

/-- The distinct sources of the kept annotations, in first-appearance
order: the grouping dictionary's key order. -/
def groupSources (anns : List Annot) : List (PyPath × Int × Int) :=
  dedupFirst ((keptAnns anns).map (fun a => a.source))

/-- The de-duplicated kept annotations at one source, in first-appearance
order: the per-source set contents. -/
def distinctAtSource (anns : List Annot) (s : PyPath × Int × Int) :
    List Annot :=
  dedupFirst ((keptAnns anns).filter (fun a => a.source = s))

/-! ### Supporting lemmas for the grouping characterization. -/

theorem keptAnns_append (l : List Annot) (a : Annot) :
    keptAnns (l ++ [a])
      = keptAnns l ++ if statusLt a.status Status.warning then [] else [a] := by
  unfold keptAnns
  rw [List.filter_append]
  cases h : statusLt a.status Status.warning <;> simp [h]

theorem groupSources_append_skip (l : List Annot) (a : Annot)
    (h : statusLt a.status Status.warning = true) :
    groupSources (l ++ [a]) = groupSources l := by
  unfold groupSources
  rw [keptAnns_append, if_pos h, List.append_nil]

theorem distinctAtSource_append_skip (l : List Annot) (a : Annot)
    (s : PyPath × Int × Int) (h : statusLt a.status Status.warning = true) :
    distinctAtSource (l ++ [a]) s = distinctAtSource l s := by
  unfold distinctAtSource
  rw [keptAnns_append, if_pos h, List.append_nil]

theorem groupSources_append_kept (l : List Annot) (a : Annot)
    (h : statusLt a.status Status.warning = false) :
    groupSources (l ++ [a])
      = if a.source ∈ groupSources l then groupSources l
        else groupSources l ++ [a.source] := by
  unfold groupSources
  rw [keptAnns_append, if_neg (by simp [h]), List.map_append, List.map_cons,
    List.map_nil, dedupFirst_append_singleton]
  split_ifs with h1 <;> rfl

theorem distinctAtSource_append_kept_ne (l : List Annot) (a : Annot)
    (s : PyPath × Int × Int) (h : statusLt a.status Status.warning = false)
    (hne : a.source ≠ s) :
    distinctAtSource (l ++ [a]) s = distinctAtSource l s := by
  unfold distinctAtSource
  rw [keptAnns_append, if_neg (by simp [h]), List.filter_append]
  have : List.filter (fun x => decide (x.source = s)) [a] = [] := by
    simp [hne]
  rw [this, List.append_nil]

theorem distinctAtSource_append_kept_eq (l : List Annot) (a : Annot)
    (h : statusLt a.status Status.warning = false) :
    distinctAtSource (l ++ [a]) a.source
      = if a ∈ distinctAtSource l a.source then distinctAtSource l a.source
        else distinctAtSource l a.source ++ [a] := by
  unfold distinctAtSource
  rw [keptAnns_append, if_neg (by simp [h]), List.filter_append]
  have : List.filter (fun x => decide (x.source = a.source)) [a] = [a] := by
    simp
  rw [this]
  exact dedupFirst_append_singleton _ a

theorem groupInsert_not_mem (g : List ((PyPath × Int × Int) × List Annot))
    (a : Annot) (h : ∀ p ∈ g, p.1 ≠ a.source) :
    groupInsert g a = g ++ [(a.source, [a])] := by
  induction g with
  | nil => rfl
  | cons p rest ih =>
      obtain ⟨s, lst⟩ := p
      have hs : s ≠ a.source := h (s, lst) (List.mem_cons_self _ _)
      show groupInsert ((s, lst) :: rest) a = _
      unfold groupInsert
      rw [if_neg hs]
      rw [ih (fun q hq => h q (List.mem_cons.mpr (Or.inr hq)))]
      rfl

theorem groupInsert_split (pre post : List ((PyPath × Int × Int) × List Annot))
    (lst : List Annot) (a : Annot)
    (hpre : ∀ p ∈ pre, p.1 ≠ a.source) :
    groupInsert (pre ++ (a.source, lst) :: post) a
      = pre ++ (a.source, if a ∈ lst then lst else lst ++ [a]) :: post := by
  induction pre with
  | nil =>
      show groupInsert ((a.source, lst) :: post) a = _
      unfold groupInsert
      rw [if_pos rfl]
      rfl
  | cons p rest ih =>
      obtain ⟨s, l0⟩ := p
      have hs : s ≠ a.source := hpre (s, l0) (List.mem_cons_self _ _)
      show groupInsert ((s, l0) :: (rest ++ (a.source, lst) :: post)) a = _
      unfold groupInsert
      rw [if_neg hs, ih (fun q hq => hpre q (List.mem_cons.mpr (Or.inr hq)))]
      rfl

theorem buildGroups_append (anns : List Annot) (a : Annot) :
    buildGroups (anns ++ [a])
      = if statusLt a.status Status.warning then buildGroups anns
        else groupInsert (buildGroups anns) a := by
  unfold buildGroups
  rw [List.foldl_append]
  rfl

theorem filter_source_nil_of_not_mem (l : List Annot) (src : PyPath × Int × Int)
    (h : src ∉ groupSources l) :
    (keptAnns l).filter (fun x => x.source = src) = [] := by
  by_contra hne
  obtain ⟨x, hx⟩ := List.exists_mem_of_ne_nil _ hne
  have hx2 := List.mem_filter.mp hx
  have hsrc : x.source = src := by simpa using hx2.2
  refine h ?_
  unfold groupSources
  refine (mem_dedupFirst _ _).mpr ?_
  exact List.mem_map.mpr ⟨x, hx2.1, hsrc⟩

/-- The grouping dictionary built by `group_issues` holds, per distinct
source of the kept annotations (in first-appearance order), the
de-duplicated kept annotations with that source. -/
theorem buildGroups_eq (anns : List Annot) :
    buildGroups anns
      = (groupSources anns).map (fun s => (s, distinctAtSource anns s)) := by
  induction anns using List.reverseRecOn with
  | nil => rfl
  | append_singleton l a ih =>
      rw [buildGroups_append]
      cases hk : statusLt a.status Status.warning with
      | true =>
          rw [if_pos rfl]
          have hfun : (fun s => ((s : PyPath × Int × Int),
              distinctAtSource (l ++ [a]) s))
              = (fun s => (s, distinctAtSource l s)) :=
            funext fun s => by rw [distinctAtSource_append_skip l a s hk]
          rw [groupSources_append_skip l a hk, hfun]
          exact ih
      | false =>
          rw [if_neg (by simp)]
          rw [ih, groupSources_append_kept l a hk]
          by_cases hmem : a.source ∈ groupSources l
          · rw [if_pos hmem]
            obtain ⟨pre, post, hsplit⟩ := List.append_of_mem hmem
            have hnodup : (groupSources l).Nodup := nodup_dedupFirst _
            rw [hsplit] at hnodup
            have hnd := List.nodup_append.mp hnodup
            have hpre : a.source ∉ pre := fun hin =>
              hnd.2.2 hin (List.mem_cons_self _ _)
            have hpost : a.source ∉ post := by
              have := hnd.2.1
              rw [List.nodup_cons] at this
              exact this.1
            rw [hsplit, List.map_append, List.map_cons]
            rw [groupInsert_split _ _ _ a
              (fun p hp => by
                rcases List.mem_map.mp hp with ⟨s, hs, hEq⟩
                rw [← hEq]
                intro hcontra
                have hs2 : s = a.source := hcontra
                exact hpre (hs2 ▸ hs))]
            rw [List.map_append, List.map_cons]
            congr 1
            · refine List.map_congr_left ?_
              intro s hs
              have hne : a.source ≠ s := fun hEq => hpre (hEq ▸ hs)
              rw [distinctAtSource_append_kept_ne l a s hk hne]
            · congr 1
              · rw [distinctAtSource_append_kept_eq l a hk]
              · refine List.map_congr_left ?_
                intro s hs
                have hne : a.source ≠ s := fun hEq => hpost (hEq ▸ hs)
                rw [distinctAtSource_append_kept_ne l a s hk hne]
          · rw [if_neg hmem]
            rw [groupInsert_not_mem _ a
              (fun p hp => by
                rcases List.mem_map.mp hp with ⟨s, hs, hEq⟩
                rw [← hEq]
                intro hcontra
                have hs2 : s = a.source := hcontra
                exact hmem (hs2 ▸ hs)),
              List.map_append, List.map_cons, List.map_nil]
            congr 1
            · refine List.map_congr_left ?_
              intro s hs
              have hne : a.source ≠ s := fun hEq => hmem (hEq ▸ hs)
              rw [distinctAtSource_append_kept_ne l a s hk hne]
            · congr 2
              rw [distinctAtSource_append_kept_eq l a hk]
              have hfil : distinctAtSource l a.source = [] := by
                unfold distinctAtSource
                rw [filter_source_nil_of_not_mem l a.source hmem]
                rfl
              rw [hfil]
              simp

/-! ### Digit and stripping facts for the aggregate title. -/

theorem natDigitChar_not_ws (d : Nat) (h : d < 10) :
    (natDigitChar d).isWhitespace = false := by
  interval_cases d <;> decide

theorem natReprAux_digits (fuel : Nat) :
    ∀ (n : Nat) (acc : List Char),
      (∀ c ∈ acc, ∃ d, d < 10 ∧ c = natDigitChar d) →
      ∀ c ∈ natReprAux fuel n acc, ∃ d, d < 10 ∧ c = natDigitChar d := by
  induction fuel with
  | zero =>
      intro n acc hacc c hc
      exact hacc c hc
  | succ m ih =>
      intro n acc hacc c hc
      rw [natReprAux] at hc
      by_cases hn : n = 0
      · rw [if_pos hn] at hc
        exact hacc c hc
      · rw [if_neg hn] at hc
        refine ih (n / 10) _ ?_ c hc
        intro x hx
        rcases List.mem_cons.mp hx with h1 | h1
        · exact ⟨n % 10, Nat.mod_lt _ (by norm_num), h1⟩
        · exact hacc x h1

theorem natReprAux_length (fuel : Nat) :
    ∀ (n : Nat) (acc : List Char), acc.length ≤ (natReprAux fuel n acc).length := by
  induction fuel with
  | zero => intro n acc; exact Nat.le_refl _
  | succ m ih =>
      intro n acc
      rw [natReprAux]
      by_cases hn : n = 0
      · rw [if_pos hn]
      · rw [if_neg hn]
        calc acc.length ≤ acc.length + 1 := Nat.le_succ _
          _ = (natDigitChar (n % 10) :: acc).length := rfl
          _ ≤ _ := ih (n / 10) _

theorem natReprAux_ne_nil (m n : Nat) (hn : n ≠ 0) :
    natReprAux (m + 1) n [] ≠ [] := by
  intro h
  rw [natReprAux, if_neg hn] at h
  have h2 := natReprAux_length m (n / 10) [natDigitChar (n % 10)]
  rw [h] at h2
  simp at h2

/-- A string whose first and last characters are not whitespace is its own
strip. -/
theorem pyStrip_eq_self (l : List Char)
    (h1 : ∀ c, l.head? = some c → c.isWhitespace = false)
    (h2 : ∀ c, l.getLast? = some c → c.isWhitespace = false) :
    pyStrip ⟨l⟩ = ⟨l⟩ := by
  unfold pyStrip
  have hd : l.dropWhile Char.isWhitespace = l := by
    cases l with
    | nil => rfl
    | cons c t =>
        rw [List.dropWhile_cons, h1 c rfl]
        simp
  rw [show (String.mk l).data = l from rfl, hd]
  have hd2 : l.reverse.dropWhile Char.isWhitespace = l.reverse := by
    cases hrev : l.reverse with
    | nil => rfl
    | cons c t =>
        rw [List.dropWhile_cons]
        have hlast : l.getLast? = some c := by
          rw [← List.head?_reverse, hrev]
          rfl
        rw [h2 c hlast]
        simp
  rw [hd2, List.reverse_reverse]

/-- The aggregate title "<N> issues on this line" is unchanged by
stripping (N positive). -/
theorem title_pyStrip_id (n : Nat) (hn : n ≠ 0) :
    pyStrip (natRepr n ++ " issues on this line")
      = natRepr n ++ " issues on this line" := by
  obtain ⟨m, rfl⟩ := Nat.exists_eq_succ_of_ne_zero hn
  have hdata : (natRepr (m + 1) ++ " issues on this line").data
      = natReprAux (m + 1) (m + 1) [] ++ (" issues on this line" : String).data := by
    rw [natRepr, if_neg hn]
    rfl
  have hne := natReprAux_ne_nil m (m + 1) (Nat.succ_ne_zero m)
  have hdigits := natReprAux_digits (m + 1) (m + 1) [] (by intro c hc; cases hc)
  have hstrip := pyStrip_eq_self
      (natReprAux (m + 1) (m + 1) [] ++ (" issues on this line" : String).data)
      (by
        intro c hc
        obtain ⟨c0, t, hcons⟩ := List.exists_cons_of_ne_nil hne
        rw [hcons, List.cons_append] at hc
        simp only [List.head?_cons, Option.some.injEq] at hc
        obtain ⟨d, hd, hcd⟩ := hdigits c0 (by rw [hcons]; exact List.mem_cons_self _ _)
        rw [← hc, hcd]
        exact natDigitChar_not_ws d hd)
      (by
        intro c hc
        have hsuf : (" issues on this line" : String).data.getLast? = some 'e' := by
          decide
        rw [List.getLast?_append, hsuf] at hc
        have hce : some 'e' = some c := hc
        cases hce
        decide)
  have heq : (⟨(natRepr (m + 1) ++ " issues on this line").data⟩ : String)
      = natRepr (m + 1) ++ " issues on this line" := rfl
  calc pyStrip (natRepr (m + 1) ++ " issues on this line")
      = pyStrip ⟨natReprAux (m + 1) (m + 1) [] ++ (" issues on this line" : String).data⟩ := by
        rw [← heq, hdata]
    _ = ⟨natReprAux (m + 1) (m + 1) [] ++ (" issues on this line" : String).data⟩ := hstrip
    _ = _ := by rw [← hdata, heq]

theorem pyIntOr0_some (v : Int) : pyIntOr0 (some v) = v := by
  show (if v = 0 then 0 else v) = v
  by_cases h : v = 0
  · rw [if_pos h, h]
  · rw [if_neg h]

/-- C4: For every finite collection of annotations, `group_issues` yields
exactly: nothing for annotations whose status is below WARNING; each
annotation that is the only (de-duplicated) annotation at its
(file, line, column) source, unchanged; and for every source with two or
more distinct annotations, a single aggregate annotation at that source
whose status is the maximum status in the group and whose message is
"<N> issues on this line" for N the group size.  (Stated for annotations
with absolute source paths, which is what the `Annotation` constructor
produces.) -/
theorem github_group_issues_spec (cwdRoot : PyPath) (anns : List Annot)
    (habs : ∀ a ∈ anns, (a.source.1).isAbs = true) :
    (groupIssues cwdRoot anns
       = (groupSources anns).map (fun s =>
           match distinctAtSource anns s with
           | [a] => a
           | issues => aggregateAnn cwdRoot s issues)) ∧
    (groupIssues cwdRoot anns = groupIssues cwdRoot (keptAnns anns)) ∧
    (∀ s ∈ groupSources anns,
        distinctAtSource anns s ≠ [] ∧
        ∀ a ∈ distinctAtSource anns s,
          a ∈ anns ∧ statusLt a.status Status.warning = false ∧ a.source = s) ∧
    (∀ s ∈ groupSources anns,
        2 ≤ (distinctAtSource anns s).length →
        (aggregateAnn cwdRoot s (distinctAtSource anns s)).source = s ∧
        (aggregateAnn cwdRoot s (distinctAtSource anns s)).message
          = natRepr (distinctAtSource anns s).length ++ " issues on this line" ∧
        (aggregateAnn cwdRoot s (distinctAtSource anns s)).status
          ∈ (distinctAtSource anns s).map (fun a => a.status) ∧
        ∀ st ∈ (distinctAtSource anns s).map (fun a => a.status),
          statusGe (aggregateAnn cwdRoot s (distinctAtSource anns s)).status st
            = true) := by
  have hmembers : ∀ s ∈ groupSources anns,
      ∀ a ∈ distinctAtSource anns s,
        a ∈ anns ∧ statusLt a.status Status.warning = false ∧ a.source = s := by
    intro s hs a ha
    have h1 := (mem_dedupFirst _ _).mp ha
    have h2 := List.mem_filter.mp h1
    have h3 := List.mem_filter.mp h2.1
    refine ⟨h3.1, ?_, by simpa using h2.2⟩
    have := h3.2
    simp only [Bool.not_eq_true'] at this
    exact this
  refine ⟨?_, ?_, ?_, ?_⟩
  · unfold groupIssues
    rw [buildGroups_eq, List.map_map]
    rfl
  · unfold groupIssues
    rw [buildGroups_eq, buildGroups_eq]
    have hkept : keptAnns (keptAnns anns) = keptAnns anns :=
      List.filter_eq_self.mpr (fun a ha => (List.mem_filter.mp ha).2)
    have h1 : groupSources (keptAnns anns) = groupSources anns := by
      unfold groupSources
      rw [hkept]
    have h2 : (fun s => ((s : PyPath × Int × Int),
        distinctAtSource (keptAnns anns) s))
        = (fun s => (s, distinctAtSource anns s)) :=
      funext fun s => by
        unfold distinctAtSource
        rw [hkept]
    rw [h1, h2]
  · intro s hs
    refine ⟨?_, hmembers s hs⟩
    have h1 := (mem_dedupFirst _ _).mp hs
    rcases List.mem_map.mp h1 with ⟨a, ha, hsrc⟩
    have hmem : a ∈ (keptAnns anns).filter (fun x => x.source = s) :=
      List.mem_filter.mpr ⟨ha, by simpa using hsrc⟩
    exact List.ne_nil_of_mem ((mem_dedupFirst _ _).mpr hmem)
  · intro s hs hlen
    have hne : distinctAtSource anns s ≠ [] := by
      intro h
      rw [h] at hlen
      simp at hlen
    obtain ⟨i0, irest, hcons⟩ := List.exists_cons_of_ne_nil hne
    have hsabs : (s.1).isAbs = true := by
      have hm := hmembers s hs i0 (by rw [hcons]; exact List.mem_cons_self _ _)
      have := habs i0 hm.1
      rw [hm.2.2] at this
      exact this
    have hsrcval : (aggregateAnn cwdRoot s (distinctAtSource anns s)).source
        = (PyPath.absolute cwdRoot s.1, pyIntOr0 (some s.2.1),
            pyIntOr0 (some s.2.2)) := rfl
    have hmsgval : (aggregateAnn cwdRoot s (distinctAtSource anns s)).message
        = pyStrip (natRepr (distinctAtSource anns s).length
            ++ " issues on this line") := rfl
    refine ⟨?_, ?_, ?_, ?_⟩
    · rw [hsrcval, pyIntOr0_some, pyIntOr0_some]
      unfold PyPath.absolute
      rw [if_pos hsabs]
    · rw [hmsgval, title_pyStrip_id]
      intro h0
      rw [h0] at hlen
      simp at hlen
    · have hstat : (aggregateAnn cwdRoot s (distinctAtSource anns s)).status
          = pyMaxStatus i0.status (irest.map (fun a => a.status)) := by
        show (match (distinctAtSource anns s).map (fun a => a.status) with
          | [] => Status.passed
          | s0 :: rest => pyMaxStatus s0 rest) = _
        rw [hcons, List.map_cons]
      rw [hstat, hcons, List.map_cons]
      exact pyMaxStatus_mem _ _
    · intro st hst
      have hstat : (aggregateAnn cwdRoot s (distinctAtSource anns s)).status
          = pyMaxStatus i0.status (irest.map (fun a => a.status)) := by
        show (match (distinctAtSource anns s).map (fun a => a.status) with
          | [] => Status.passed
          | s0 :: rest => pyMaxStatus s0 rest) = _
        rw [hcons, List.map_cons]
      rw [hstat]
      refine pyMaxStatus_ge _ _ st ?_
      rw [hcons, List.map_cons] at hst
      exact hst

/-- Witness for C4: two distinct WARNING-or-above annotations on the same
line plus one PASSED annotation yield exactly one aggregate annotation
with the maximum status and message "2 issues on this line". -/
theorem github_group_issues_spec_witness :
    groupIssues ⟨true, []⟩
        [⟨Status.failed, (⟨true, ["repo", "f.py"]⟩, 3, 1), some "PyLint",
            "E1", "first", none, none⟩,
          ⟨Status.warning, (⟨true, ["repo", "f.py"]⟩, 3, 1), some "Flake8",
            "E2", "second", none, none⟩,
          ⟨Status.passed, (⟨true, ["repo", "g.py"]⟩, 1, 0), some "Ruff",
            "E3", "third", none, none⟩]
      = [aggregateAnn ⟨true, []⟩ (⟨true, ["repo", "f.py"]⟩, 3, 1)
          [⟨Status.failed, (⟨true, ["repo", "f.py"]⟩, 3, 1), some "PyLint",
              "E1", "first", none, none⟩,
            ⟨Status.warning, (⟨true, ["repo", "f.py"]⟩, 3, 1), some "Flake8",
              "E2", "second", none, none⟩]] ∧
    (aggregateAnn ⟨true, []⟩ (⟨true, ["repo", "f.py"]⟩, 3, 1)
        [⟨Status.failed, (⟨true, ["repo", "f.py"]⟩, 3, 1), some "PyLint",
            "E1", "first", none, none⟩,
          ⟨Status.warning, (⟨true, ["repo", "f.py"]⟩, 3, 1), some "Flake8",
            "E2", "second", none, none⟩]).status = Status.failed ∧
    (aggregateAnn ⟨true, []⟩ (⟨true, ["repo", "f.py"]⟩, 3, 1)
        [⟨Status.failed, (⟨true, ["repo", "f.py"]⟩, 3, 1), some "PyLint",
            "E1", "first", none, none⟩,
          ⟨Status.warning, (⟨true, ["repo", "f.py"]⟩, 3, 1), some "Flake8",
            "E2", "second", none, none⟩]).message = "2 issues on this line" := by
  have h := github_group_issues_spec ⟨true, []⟩
      [⟨Status.failed, (⟨true, ["repo", "f.py"]⟩, 3, 1), some "PyLint",
          "E1", "first", none, none⟩,
        ⟨Status.warning, (⟨true, ["repo", "f.py"]⟩, 3, 1), some "Flake8",
          "E2", "second", none, none⟩,
        ⟨Status.passed, (⟨true, ["repo", "g.py"]⟩, 1, 0), some "Ruff",
          "E3", "third", none, none⟩] (by decide)
  refine ⟨?_, by decide, by decide⟩
  rw [h.1]
  decide

/-! ## `PathGatherer` (config.py lines 133-276)

The gatherer's mutable sets are modelled as duplicate-free lists in
insertion order; `set.add` is append-if-absent, `set.remove` removes the
element.  The `(file.parent / "__init__.py").exists()` filesystem probe
is an oracle.
-/

/-- `str.endswith(suffix)`, modelled on the character lists. -/
def pyEndsWith (s suffix : String) : Bool :=
  suffix.data.isSuffixOf s.data

/-- The state of a `PathGatherer` during a scan: `_potential_py_path`,
`_python_path`, `_python_module_path` and `_python_files`. -/
structure GatherState where
  potential : List PyPath
  pythonPath : List PyPath
  pythonModulePath : List PyPath
  pythonFiles : List PyPath
deriving DecidableEq, Repr

/-- `set.add`: append if not already present. -/
def insertPath (l : List PyPath) (p : PyPath) : List PyPath :=
  if p ∈ l then l else l ++ [p]

/-- `PathGatherer._add_path` (config.py lines 252-262): refuse paths that
are already present or relative to a present path; otherwise add. -/
def addPath (paths : List PyPath) (p : PyPath) : List PyPath × Bool :=
  if p ∈ paths then (paths, false)
  else if paths.any (fun q => PyPath.relTo p q) then (paths, false)
  else (paths ++ [p], true)

/-- One iteration of the `_closest_relative` loop: skip entries that are
not proper ancestors of `path`, and skip a new candidate whenever the
current closest is relative to it. -/
def closestStep (path : PyPath) (closest : Option PyPath) (p : PyPath) :
    Option PyPath :=
  if !(PyPath.isParentOf p path) then closest
  else
    match closest with
    | some c => if PyPath.relTo c p then some c else some p
    | none => some p

/-- `PathGatherer._closest_relative` (config.py lines 264-276). -/
def closestRelative (paths : List PyPath) (path : PyPath) : Option PyPath :=
  paths.foldl (closestStep path) none

/-- `PathGatherer._process_python_file` (config.py lines 220-250). -/
def processPythonFile (initExists : PyPath → Bool) (file : PyPath)
    (st : GatherState) : GatherState :=
  let st1 := { st with pythonFiles := insertPath st.pythonFiles file }
  let st2 := { st1 with
    pythonModulePath := (addPath st1.pythonModulePath file.parent).1 }
  if (closestRelative st2.pythonPath file).isSome then st2
  else
    let myDirCantBePypath := initExists (file.parent.child "__init__.py")
    let target := if myDirCantBePypath then file.parent else file
    match closestRelative st2.potential target with
    | none => st2
    | some pyRoot =>
        { st2 with
          potential := st2.potential.filter (fun q => q ≠ pyRoot)
          pythonPath := insertPath st2.pythonPath pyRoot }

/-! ### Facts about proper ancestors. -/

theorem parentOf_parts (a p : PyPath) (h : PyPath.isParentOf a p = true) :
    a.isAbs = p.isAbs ∧ a.comps <+: p.comps ∧ a.comps ≠ p.comps := by
  unfold PyPath.isParentOf at h
  simp only [Bool.and_eq_true, beq_iff_eq, List.isPrefixOf_iff_prefix,
    decide_eq_true_eq] at h
  exact ⟨h.1.1, h.1.2, h.2⟩

theorem ancestor_comparable (a b p : PyPath)
    (ha : PyPath.isParentOf a p = true) (hb : PyPath.isParentOf b p = true) :
    a.comps <+: b.comps ∨ b.comps <+: a.comps := by
  have h1 := (parentOf_parts a p ha).2.1
  have h2 := (parentOf_parts b p hb).2.1
  exact List.prefix_or_prefix_of_prefix h1 h2

theorem ancestor_ext (a b p : PyPath)
    (ha : PyPath.isParentOf a p = true) (hb : PyPath.isParentOf b p = true)
    (hcomps : a.comps = b.comps) : a = b := by
  have h1 := (parentOf_parts a p ha).1
  have h2 := (parentOf_parts b p hb).1
  cases a with
  | mk aAbs aComps =>
      cases b with
      | mk bAbs bComps =>
          simp only at h1 h2 hcomps
          rw [show aAbs = bAbs from h1.trans h2.symm, hcomps]

theorem relTo_of_ancestors (c q p : PyPath)
    (hc : PyPath.isParentOf c p = true) (hq : PyPath.isParentOf q p = true) :
    PyPath.relTo c q = (q.comps.isPrefixOf c.comps) := by
  have h1 := (parentOf_parts c p hc).1
  have h2 := (parentOf_parts q p hq).1
  unfold PyPath.relTo
  rw [show (c.isAbs == q.isAbs) = true from by
    simp [h1.trans h2.symm]]
  rw [Bool.true_and]

theorem relTo_parts (p base : PyPath) (h : PyPath.relTo p base = true) :
    p.isAbs = base.isAbs ∧ base.comps <+: p.comps := by
  unfold PyPath.relTo at h
  simp only [Bool.and_eq_true, beq_iff_eq, List.isPrefixOf_iff_prefix] at h
  exact h

theorem relTo_intro (p base : PyPath) (h1 : p.isAbs = base.isAbs)
    (h2 : base.comps <+: p.comps) : PyPath.relTo p base = true := by
  unfold PyPath.relTo
  simp only [Bool.and_eq_true, beq_iff_eq, List.isPrefixOf_iff_prefix]
  exact ⟨h1, h2⟩

theorem closestStep_not_parent (path : PyPath) (acc : Option PyPath)
    (p : PyPath) (h : PyPath.isParentOf p path = false) :
    closestStep path acc p = acc := by
  unfold closestStep
  rw [h]
  rfl

theorem closestStep_noneAcc (path p : PyPath)
    (h : PyPath.isParentOf p path = true) :
    closestStep path none p = some p := by
  unfold closestStep
  rw [h]
  rfl

theorem closestStep_someAcc (path c p : PyPath)
    (h : PyPath.isParentOf p path = true) :
    closestStep path (some c) p
      = if PyPath.relTo c p then some c else some p := by
  unfold closestStep
  rw [h]
  rfl

/-- Two proper ancestors of the same path with the first at least as long
as the second, and the first a prefix-extension target of the second, are
equal when their lengths force it. -/
theorem ancestor_eq_of_ge_len (c p path : PyPath)
    (hc : PyPath.isParentOf c path = true)
    (hp : PyPath.isParentOf p path = true)
    (hpre : c.comps <+: p.comps) (hlen : p.comps.length ≤ c.comps.length) :
    c = p := by
  refine ancestor_ext c p path hc hp ?_
  exact hpre.eq_of_length (Nat.le_antisymm hpre.length_le hlen)

/-- The fold of `_closest_relative` lands on any maximal-length proper
ancestor present in the remaining list or the accumulator. -/
theorem closestRelative_deepest_aux (path a : PyPath)
    (ha : PyPath.isParentOf a path = true) :
    ∀ (l : List PyPath) (acc : Option PyPath),
      (∀ b ∈ l, PyPath.isParentOf b path = true →
        b.comps.length ≤ a.comps.length) →
      (a ∈ l ∨ acc = some a) →
      (∀ c, acc = some c → PyPath.isParentOf c path = true ∧
        c.comps.length ≤ a.comps.length) →
      l.foldl (closestStep path) acc = some a := by
  intro l
  induction l with
  | nil =>
      intro acc hbound hmem hacc
      rcases hmem with h | h
      · cases h
      · exact h
  | cons p rest ih =>
      intro acc hbound hmem hacc
      rw [List.foldl_cons]
      have hboundRest : ∀ b ∈ rest, PyPath.isParentOf b path = true →
          b.comps.length ≤ a.comps.length :=
        fun b hb => hbound b (List.mem_cons.mpr (Or.inr hb))
      by_cases hpp : PyPath.isParentOf p path = true
      · have hplen : p.comps.length ≤ a.comps.length :=
          hbound p (List.mem_cons_self _ _) hpp
        cases hacceq : acc with
        | none =>
            rw [closestStep_noneAcc path p hpp]
            by_cases hpa : p = a
            · rw [hpa]
              exact ih (some a) hboundRest (Or.inr rfl)
                (fun c hc => by cases hc; exact ⟨ha, Nat.le_refl _⟩)
            · have hmem' : a ∈ rest := by
                rcases hmem with h | h
                · rcases List.mem_cons.mp h with h1 | h1
                  · exact absurd h1.symm hpa
                  · exact h1
                · rw [hacceq] at h
                  cases h
              exact ih (some p) hboundRest (Or.inl hmem')
                (fun c hc => by cases hc; exact ⟨hpp, hplen⟩)
        | some c =>
            have hcfacts := hacc c hacceq
            rw [closestStep_someAcc path c p hpp]
            by_cases hrel : PyPath.relTo c p = true
            · rw [if_pos hrel]
              have hmem' : a ∈ rest ∨ (some c : Option PyPath) = some a := by
                rcases hmem with h | h
                · rcases List.mem_cons.mp h with h1 | h1
                  · -- a = p, and c is relative to p, hence c extends p = a;
                    -- the length bound then forces c = a.
                    have hpc : p.comps <+: c.comps := (relTo_parts c p hrel).2
                    rw [← h1] at hpc hpp
                    have : a = c := by
                      refine ancestor_ext a c path ha hcfacts.1 ?_
                      exact hpc.eq_of_length
                        (Nat.le_antisymm hpc.length_le hcfacts.2)
                    exact Or.inr (by rw [this])
                  · exact Or.inl h1
                · rw [hacceq] at h
                  exact Or.inr h
              exact ih (some c) hboundRest hmem'
                (fun c' hc' => by cases hc'; exact hcfacts)
            · rw [if_neg hrel]
              have hmem' : a ∈ rest ∨ (some p : Option PyPath) = some a := by
                rcases hmem with h | h
                · rcases List.mem_cons.mp h with h1 | h1
                  · exact Or.inr (by rw [h1])
                  · exact Or.inl h1
                · rw [hacceq] at h
                  have hca : c = a := by
                    injection h
                  -- c is not relative to p, so (ancestors being a chain)
                  -- c's components are a proper prefix of p's; the length
                  -- bound with c = a then forces p = c.
                  have hcp : c.comps <+: p.comps := by
                    rcases ancestor_comparable c p path hcfacts.1 hpp with h2 | h2
                    · exact h2
                    · exfalso
                      refine hrel (relTo_intro c p ?_ h2)
                      exact (parentOf_parts c path hcfacts.1).1.trans
                        (parentOf_parts p path hpp).1.symm
                  have : c = p := by
                    refine ancestor_eq_of_ge_len c p path hcfacts.1 hpp hcp ?_
                    rw [hca]
                    exact hplen
                  exact Or.inr (by rw [← this, hca])
              exact ih (some p) hboundRest hmem'
                (fun c' hc' => by cases hc'; exact ⟨hpp, hplen⟩)
      · have hppf : PyPath.isParentOf p path = false := by simpa using hpp
        rw [closestStep_not_parent path acc p hppf]
        have hmem' : a ∈ rest ∨ acc = some a := by
          rcases hmem with h | h
          · rcases List.mem_cons.mp h with h1 | h1
            · rw [h1] at ha
              rw [ha] at hppf
              cases hppf
            · exact Or.inl h1
          · exact Or.inr h
        exact ih acc hboundRest hmem' hacc

theorem closestRelative_none_aux (path : PyPath) :
    ∀ (l : List PyPath) (acc : Option PyPath),
      (∀ b ∈ l, PyPath.isParentOf b path = false) →
      l.foldl (closestStep path) acc = acc := by
  intro l
  induction l with
  | nil => intro acc h; rfl
  | cons p rest ih =>
      intro acc h
      rw [List.foldl_cons,
        closestStep_not_parent path acc p (h p (List.mem_cons_self _ _))]
      exact ih acc (fun b hb => h b (List.mem_cons.mpr (Or.inr hb)))

theorem insertPath_mem (l : List PyPath) (p q : PyPath) :
    q ∈ insertPath l p ↔ q ∈ l ∨ q = p := by
  unfold insertPath
  by_cases h : p ∈ l
  · rw [if_pos h]
    constructor
    · exact fun hq => Or.inl hq
    · rintro (hq | rfl)
      · exact hq
      · exact h
  · rw [if_neg h]
    simp

/-- C7: `_closest_relative(paths, path)` returns the deepest element of
`paths` that is a proper ancestor of `path`, whatever order the set is
iterated in, and `None` when no element is an ancestor; and for every
discovered .py file not already under a known python path, the closest
potential root — computed from the file's directory when that directory
contains `__init__.py`, otherwise from the file itself — is moved from
the potential set into `python_path`. -/
theorem closest_relative_deepest_and_move :
    (∀ (paths : List PyPath) (path a : PyPath),
        a ∈ paths → PyPath.isParentOf a path = true →
        (∀ b ∈ paths, PyPath.isParentOf b path = true →
            b.comps.length ≤ a.comps.length) →
        closestRelative paths path = some a) ∧
    (∀ (paths : List PyPath) (path : PyPath),
        (∀ b ∈ paths, PyPath.isParentOf b path = false) →
        closestRelative paths path = none) ∧
    (∀ (initExists : PyPath → Bool) (file : PyPath) (st : GatherState)
        (r : PyPath),
        closestRelative st.pythonPath file = none →
        closestRelative st.potential
            (if initExists (file.parent.child "__init__.py") then file.parent
              else file) = some r →
        r ∈ (processPythonFile initExists file st).pythonPath ∧
        r ∉ (processPythonFile initExists file st).potential ∧
        (∀ x, x ≠ r →
          (x ∈ (processPythonFile initExists file st).potential ↔
            x ∈ st.potential)) ∧
        (processPythonFile initExists file st).pythonFiles
          = insertPath st.pythonFiles file) := by
  refine ⟨?_, ?_, ?_⟩
  · intro paths path a hmem ha hbound
    exact closestRelative_deepest_aux path a ha paths none hbound
      (Or.inl hmem) (fun c hc => by cases hc)
  · intro paths path h
    exact closestRelative_none_aux path paths none h
  · intro initExists file st r h1 h2
    have hres : processPythonFile initExists file st
        = { potential := st.potential.filter (fun q => q ≠ r)
            pythonPath := insertPath st.pythonPath r
            pythonModulePath := (addPath st.pythonModulePath file.parent).1
            pythonFiles := insertPath st.pythonFiles file } := by
      unfold processPythonFile
      simp only [h1, h2, Option.isSome_none, Bool.false_eq_true, if_false]
    rw [hres]
    refine ⟨?_, ?_, ?_, rfl⟩
    · exact (insertPath_mem st.pythonPath r r).mpr (Or.inr rfl)
    · intro hcontra
      have := List.mem_filter.mp hcontra
      simp at this
    · intro x hx
      constructor
      · intro hxin
        exact (List.mem_filter.mp hxin).1
      · intro hxin
        exact List.mem_filter.mpr ⟨hxin, by simpa using hx⟩

/-- Witness for C7: among {/repo, /repo/src}, the deepest proper ancestor
of /repo/src/pkg/mod.py is /repo/src; and processing that file (whose
directory holds an `__init__.py`) moves /repo/src from the potential set
into python_path. -/
theorem closest_relative_deepest_and_move_witness :
    closestRelative [⟨true, ["repo"]⟩, ⟨true, ["repo", "src"]⟩]
        ⟨true, ["repo", "src", "pkg", "mod.py"]⟩
      = some ⟨true, ["repo", "src"]⟩ ∧
    closestRelative [⟨true, ["other"]⟩] ⟨true, ["repo", "src"]⟩ = none ∧
    (⟨true, ["repo", "src"]⟩ : PyPath) ∈
      (processPythonFile (fun _ => true)
          ⟨true, ["repo", "src", "pkg", "mod.py"]⟩
          ⟨[⟨true, ["repo", "src"]⟩], [], [], []⟩).pythonPath ∧
    (⟨true, ["repo", "src"]⟩ : PyPath) ∉
      (processPythonFile (fun _ => true)
          ⟨true, ["repo", "src", "pkg", "mod.py"]⟩
          ⟨[⟨true, ["repo", "src"]⟩], [], [], []⟩).potential := by
  have h1 := closest_relative_deepest_and_move.1
    [⟨true, ["repo"]⟩, ⟨true, ["repo", "src"]⟩]
    ⟨true, ["repo", "src", "pkg", "mod.py"]⟩ ⟨true, ["repo", "src"]⟩
    (by decide) (by decide) (by decide)
  have h2 := closest_relative_deepest_and_move.2.1
    [⟨true, ["other"]⟩] ⟨true, ["repo", "src"]⟩ (by decide)
  have h3 := closest_relative_deepest_and_move.2.2 (fun _ => true)
    ⟨true, ["repo", "src", "pkg", "mod.py"]⟩
    ⟨[⟨true, ["repo", "src"]⟩], [], [], []⟩ ⟨true, ["repo", "src"]⟩
    (by decide) (by decide)
  exact ⟨h1, h2, h3.1, h3.2.1⟩

/-! ## `PathGatherer.gather` / `_scan_dir` (config.py lines 154-218)

The directory tree is a rose tree of named entries; a directory node
carries the parsed rule of its own `.gitignore` file when it has one
(`gitignore_parser.parse_gitignore` is third-party code, so a rule is an
abstract predicate on paths).  `_scan_dir` threads the gather state
through the children of each directory in order.
-/

inductive FSEntry where
  | file (name : String)
  | dir (name : String) (gitignore : Option (PyPath → Bool))
      (children : List FSEntry)

/-- The name a directory listing shows for an entry. -/
def entryName : FSEntry → String
  | .file n => n
  | .dir n _ _ => n

mutual
/-- Well-formedness of one entry: its subtree has no duplicate sibling
names (real directory listings never do). -/
def wfEntry : FSEntry → Bool
  | .file _ => true
  | .dir _ _ ch => wfEntries ch

/-- Well-formedness of a directory listing: sibling names are distinct
and every entry is well-formed. -/
def wfEntries (es : List FSEntry) : Bool :=
  decide ((es.map entryName).Nodup) && wfAll es

/-- Every entry of the list is well-formed. -/
def wfAll : List FSEntry → Bool
  | [] => true
  | e :: rest => wfEntry e && wfAll rest
end

/-- The first directory entry with the given name, with its gitignore and
children (unique under `wfEntries`). -/
def findDir : List FSEntry → String → Option (Option (PyPath → Bool) × List FSEntry)
  | [], _ => none
  | .file _ :: rest, c => findDir rest c
  | .dir n g ch :: rest, c =>
      if n = c then some (g, ch) else findDir rest c

/-- The built-in rule added by `gather` (config.py line 162):
`lambda path: path.name in [".git", ".hg"]`. -/
def builtinIgnore : PyPath → Bool :=
  fun path => path.name == ".git" || path.name == ".hg"

/-- The initial ignore list built by `gather` (config.py lines 162-167):
the built-in rule plus, when `.git/info/exclude` exists at the root, its
parsed rule. -/
def gatherIgnores (rootExclude : Option (PyPath → Bool)) :
    List (PyPath → Bool) :=
  [builtinIgnore] ++ rootExclude.toList

/-- The `_pypath_selector` step of `_scan_dir` (config.py lines 205-207):
record the directory as a potential PYTHONPATH entry when its name is
selected and it is not already known. -/
def potentialStep (selector : List String) (p : PyPath) (st : GatherState) :
    GatherState :=
  if p.name ∈ selector ∧ p ∉ st.potential then
    { st with potential := st.potential ++ [p] }
  else st

/-- The child loop of `_scan_dir` (config.py lines 209-218): skip entries
matched by any applicable ignore rule; recurse into directories (first
extending the rule list with the directory's own `.gitignore` and running
the potential-PYTHONPATH step, as `_scan_dir` does on entry); process
`.py` files. -/
def scanChildren (initExists : PyPath → Bool) (selector : List String)
    (p : PyPath) (igs : List (PyPath → Bool)) :
    List FSEntry → GatherState → GatherState
  | [], st => st
  | e :: rest, st =>
      let st' :=
        match e with
        | .file n =>
            let cp := p.child n
            if igs.any (fun ig => ig cp) then st
            else if pyEndsWith n ".py" then processPythonFile initExists cp st
            else st
        | .dir n g ch =>
            let cp := p.child n
            if igs.any (fun ig => ig cp) then st
            else
              scanChildren initExists selector cp (igs ++ g.toList) ch
                (potentialStep selector cp st)
      scanChildren initExists selector p igs rest st'

/-- `PathGatherer._scan_dir` (config.py lines 198-218) on a directory
whose own `.gitignore` parses to `gi` and whose listing is `children`. -/
def scanDir (initExists : PyPath → Bool) (selector : List String)
    (p : PyPath) (gi : Option (PyPath → Bool)) (children : List FSEntry)
    (igs : List (PyPath → Bool)) (st : GatherState) : GatherState :=
  scanChildren initExists selector p (igs ++ gi.toList) children
    (potentialStep selector p st)

/-- Specification predicate: the walk starting at `p` over the listing
`es` with applicable rules `igs` records the file `q`. -/
def recordsQ (igs : List (PyPath → Bool)) (p : PyPath) :
    List FSEntry → PyPath → Bool
  | [], _ => false
  | e :: rest, q =>
      (match e with
       | .file n =>
           q == p.child n && pyEndsWith n ".py"
             && !(igs.any (fun ig => ig (p.child n)))
       | .dir n g ch =>
           !(igs.any (fun ig => ig (p.child n)))
             && recordsQ (igs ++ g.toList) (p.child n) ch q)
      || recordsQ igs p rest q

/-- Specification predicate: walking the relative component chain `rel`
below the directory at `p` (listing `es`, applicable rules `igs`), some
prefix of the chain is matched by a rule applicable at its depth —
inherited rules plus the `.gitignore` rules of the traversed directories. -/
def blockedBelow (igs : List (PyPath → Bool)) (p : PyPath)
    (es : List FSEntry) : List String → Bool
  | [] => false
  | c :: rest =>
      igs.any (fun ig => ig (p.child c)) ||
        (match findDir es c with
         | none => false
         | some (g, ch) =>
             blockedBelow (igs ++ g.toList) (p.child c) ch rest)


theorem processPythonFile_pythonFiles (i : PyPath → Bool) (f : PyPath) (st : GatherState) :
    (processPythonFile i f st).pythonFiles = insertPath st.pythonFiles f := by
  unfold processPythonFile
  dsimp only
  split
  · rfl
  · split <;> rfl

theorem potentialStep_pythonFiles (sel : List String) (p : PyPath) (st : GatherState) :
    (potentialStep sel p st).pythonFiles = st.pythonFiles := by
  unfold potentialStep
  split <;> rfl

theorem mem_scanChildren_files (initExists : PyPath → Bool)
    (selector : List String) (q : PyPath) :
    ∀ (p : PyPath) (igs : List (PyPath → Bool)) (es : List FSEntry)
      (st : GatherState),
      q ∈ (scanChildren initExists selector p igs es st).pythonFiles ↔
        q ∈ st.pythonFiles ∨ recordsQ igs p es q = true := by
  intro p igs es st
  induction p, igs, es, st using scanChildren.induct initExists selector with
  | case1 p igs st =>
      simp only [scanChildren, recordsQ]
      simp
  | case2 p igs e rest st st' ihm ihr =>
      cases e with
      | file n =>
          have hst : st' = (if (igs.any fun ig => ig (p.child n)) = true then st
              else if pyEndsWith n ".py" = true
              then processPythonFile initExists (p.child n) st else st) := rfl
          rw [hst] at ihr
          simp only [scanChildren, recordsQ]
          rw [ihr]
          by_cases hig : (igs.any fun ig => ig (p.child n)) = true
          · simp [hig]
          · have hig' : (igs.any fun ig => ig (p.child n)) = false := by
              simpa using hig
            by_cases hpy : pyEndsWith n ".py" = true
            · simp only [hig', Bool.false_eq_true, if_false, hpy, if_true,
                Bool.not_false, Bool.and_true]
              rw [processPythonFile_pythonFiles, insertPath_mem]
              constructor
              · rintro ((h | h) | h)
                · exact Or.inl h
                · exact Or.inr (by simp [h, hpy])
                · exact Or.inr (by simp [h])
              · rintro (h | h)
                · exact Or.inl (Or.inl h)
                · rcases Bool.or_eq_true _ _ |>.mp h with h2 | h2
                  · simp only [beq_iff_eq] at h2
                    exact Or.inl (Or.inr h2)
                  · exact Or.inr h2
            · have hpy' : pyEndsWith n ".py" = false := by simpa using hpy
              simp [hig', hpy']
      | dir n g ch =>
          have hst : st' = (if (igs.any fun ig => ig (p.child n)) = true then st
              else scanChildren initExists selector (p.child n)
                (igs ++ g.toList) ch (potentialStep selector (p.child n) st)) := rfl
          rw [hst] at ihr
          simp only at ihm
          simp only [scanChildren, recordsQ]
          rw [ihr]
          by_cases hig : (igs.any fun ig => ig (p.child n)) = true
          · simp [hig]
          · have hig' : (igs.any fun ig => ig (p.child n)) = false := by
              simpa using hig
            simp only [hig', Bool.false_eq_true, if_false, Bool.not_false,
              Bool.true_and]
            rw [ihm, potentialStep_pythonFiles]
            constructor
            · rintro ((h | h) | h)
              · exact Or.inl h
              · exact Or.inr (by simp [h])
              · exact Or.inr (by simp [h])
            · rintro (h | h)
              · exact Or.inl (Or.inl h)
              · rcases Bool.or_eq_true _ _ |>.mp h with h2 | h2
                · exact Or.inl (Or.inr h2)
                · exact Or.inr h2

theorem parentOf_child (p : PyPath) (n : String) :
    PyPath.isParentOf p (p.child n) = true := by
  unfold PyPath.isParentOf PyPath.child
  simp

theorem parentOf_trans (a b c : PyPath)
    (h1 : PyPath.isParentOf a b = true) (h2 : PyPath.isParentOf b c = true) :
    PyPath.isParentOf a c = true := by
  obtain ⟨hab1, hab2, hab3⟩ := parentOf_parts a b h1
  obtain ⟨hbc1, hbc2, hbc3⟩ := parentOf_parts b c h2
  unfold PyPath.isParentOf
  simp only [Bool.and_eq_true, beq_iff_eq, List.isPrefixOf_iff_prefix,
    decide_eq_true_eq]
  refine ⟨⟨hab1.trans hbc1, hab2.trans hbc2⟩, ?_⟩
  intro hcontra
  have hlab : a.comps.length < b.comps.length :=
    Nat.lt_of_le_of_ne hab2.length_le (fun hl => hab3 (hab2.eq_of_length hl))
  have hlbc : b.comps.length ≤ c.comps.length := hbc2.length_le
  have : a.comps.length < c.comps.length := Nat.lt_of_lt_of_le hlab hlbc
  rw [hcontra] at this
  exact Nat.lt_irrefl _ this

theorem child_name (p : PyPath) (n : String) : (p.child n).name = n := by
  unfold PyPath.child PyPath.name
  simp

theorem recordsQ_below (q : PyPath) :
    ∀ (igs : List (PyPath → Bool)) (p : PyPath) (es : List FSEntry),
      recordsQ igs p es q = true → PyPath.isParentOf p q = true := by
  intro igs p es
  induction igs, p, es, q using recordsQ.induct with
  | case1 igs p q =>
      intro h
      simp [recordsQ] at h
  | case2 igs p e rest q ihm ihr =>
      intro h
      cases e with
      | file n =>
          simp only [recordsQ, Bool.or_eq_true, Bool.and_eq_true,
            beq_iff_eq] at h
          rcases h with ⟨⟨h1, _⟩, _⟩ | h1
          · rw [h1]
            exact parentOf_child p n
          · exact ihr h1
      | dir n g ch =>
          simp only at ihm
          simp only [recordsQ, Bool.or_eq_true, Bool.and_eq_true] at h
          rcases h with ⟨_, h1⟩ | h1
          · exact parentOf_trans p (p.child n) q (parentOf_child p n)
              (ihm h1)
          · exact ihr h1


theorem builtin_false_names (cp : PyPath) (h : builtinIgnore cp = false) :
    cp.name ≠ ".git" ∧ cp.name ≠ ".hg" := by
  unfold builtinIgnore at h
  simp only [Bool.or_eq_false_iff, beq_eq_false_iff_ne, ne_eq] at h
  exact h

theorem any_false_at {igs : List (PyPath → Bool)} {f : PyPath → Bool}
    {cp : PyPath} (hmem : f ∈ igs)
    (h : (igs.any fun ig => ig cp) = false) : f cp = false := by
  rw [List.any_eq_false] at h
  have := h f hmem
  simpa using this

theorem recordsQ_head (q : PyPath) :
    ∀ (igs : List (PyPath → Bool)) (p : PyPath) (es : List FSEntry),
      recordsQ igs p es q = true →
      ∃ c0 rel0, q.comps.drop p.comps.length = c0 :: rel0 ∧
        c0 ∈ es.map entryName ∧
        (igs.any fun ig => ig (p.child c0)) = false := by
  intro igs p es
  induction igs, p, es, q using recordsQ.induct with
  | case1 igs p q =>
      intro h
      simp [recordsQ] at h
  | case2 igs p e rest q ihm ihr =>
      intro h
      cases e with
      | file n =>
          simp only [recordsQ, Bool.or_eq_true, Bool.and_eq_true,
            beq_iff_eq, Bool.not_eq_true'] at h
          rcases h with ⟨⟨h1, _⟩, hany⟩ | h1
          · refine ⟨n, [], ?_, by simp [entryName], by rw [← h1] at hany ⊢; exact hany⟩
            rw [h1]
            show ((p.comps ++ [n]).drop p.comps.length) = [n]
            exact List.drop_left _ _
          · obtain ⟨c0, rel0, hdrop, hmem, hany⟩ := ihr h1
            exact ⟨c0, rel0, hdrop, by simp [entryName, hmem], hany⟩
      | dir n g ch =>
          simp only at ihm
          simp only [recordsQ, Bool.or_eq_true, Bool.and_eq_true,
            Bool.not_eq_true'] at h
          rcases h with ⟨hany, h1⟩ | h1
          · have hpar := recordsQ_below q (igs ++ g.toList) (p.child n) ch h1
            obtain ⟨rel2, hrel⟩ := (parentOf_parts _ _ hpar).2.1
            refine ⟨n, rel2, ?_, by simp [entryName], hany⟩
            rw [← hrel]
            show ((p.comps ++ [n]) ++ rel2).drop p.comps.length = n :: rel2
            rw [List.append_assoc]
            show (p.comps ++ ([n] ++ rel2)).drop p.comps.length = n :: rel2
            exact List.drop_left _ _
          · obtain ⟨c0, rel0, hdrop, hmem, hany⟩ := ihr h1
            exact ⟨c0, rel0, hdrop, by simp [entryName, hmem], hany⟩


theorem recordsQ_clean (q : PyPath) :
    ∀ (igs : List (PyPath → Bool)) (p : PyPath) (es : List FSEntry),
      builtinIgnore ∈ igs →
      recordsQ igs p es q = true →
      ∀ c ∈ q.comps.drop p.comps.length, c ≠ ".git" ∧ c ≠ ".hg" := by
  intro igs p es
  induction igs, p, es, q using recordsQ.induct with
  | case1 igs p q =>
      intro hb h
      simp [recordsQ] at h
  | case2 igs p e rest q ihm ihr =>
      intro hb h
      cases e with
      | file n =>
          simp only [recordsQ, Bool.or_eq_true, Bool.and_eq_true,
            beq_iff_eq, Bool.not_eq_true'] at h
          rcases h with ⟨⟨h1, _⟩, hany⟩ | h1
          · intro c hc
            rw [h1] at hc
            have hdrop : ((p.child n).comps).drop p.comps.length = [n] := by
              show ((p.comps ++ [n]).drop p.comps.length) = [n]
              exact List.drop_left _ _
            rw [hdrop] at hc
            simp only [List.mem_singleton] at hc
            subst hc
            have hbf := any_false_at hb hany
            have := builtin_false_names _ hbf
            rw [child_name] at this
            exact this
          · exact ihr hb h1
      | dir n g ch =>
          simp only at ihm
          simp only [recordsQ, Bool.or_eq_true, Bool.and_eq_true,
            Bool.not_eq_true'] at h
          rcases h with ⟨hany, h1⟩ | h1
          · intro c hc
            have hpar := recordsQ_below q (igs ++ g.toList) (p.child n) ch h1
            obtain ⟨rel2, hrel⟩ := (parentOf_parts _ _ hpar).2.1
            have hdrop : q.comps.drop p.comps.length = n :: rel2 := by
              rw [← hrel]
              show ((p.comps ++ [n]) ++ rel2).drop p.comps.length = n :: rel2
              rw [List.append_assoc]
              show (p.comps ++ ([n] ++ rel2)).drop p.comps.length = n :: rel2
              exact List.drop_left _ _
            rw [hdrop] at hc
            rcases List.mem_cons.mp hc with hcn | hcm
            · subst hcn
              have hbf := any_false_at hb hany
              have := builtin_false_names _ hbf
              rw [child_name] at this
              exact this
            · have hdrop2 : q.comps.drop (p.child n).comps.length = rel2 := by
                rw [← hrel]
                show (((p.child n).comps) ++ rel2).drop (p.child n).comps.length
                  = rel2
                exact List.drop_left _ _
              refine ihm (List.mem_append_left _ hb) h1 c ?_
              rw [hdrop2]
              exact hcm
          · exact ihr hb h1


theorem wfEntries_parts (e : FSEntry) (rest : List FSEntry)
    (h : wfEntries (e :: rest) = true) :
    wfEntry e = true ∧ wfEntries rest = true ∧
      entryName e ∉ rest.map entryName := by
  rw [wfEntries] at h
  simp only [Bool.and_eq_true, decide_eq_true_eq] at h
  obtain ⟨hnodup, hall⟩ := h
  rw [List.map_cons, List.nodup_cons] at hnodup
  rw [wfAll] at hall
  simp only [Bool.and_eq_true] at hall
  refine ⟨hall.1, ?_, hnodup.1⟩
  rw [wfEntries]
  simp only [Bool.and_eq_true, decide_eq_true_eq]
  exact ⟨hnodup.2, hall.2⟩

theorem wfEntry_dir (n : String) (g : Option (PyPath → Bool))
    (ch : List FSEntry) (h : wfEntry (.dir n g ch) = true) :
    wfEntries ch = true := by
  rw [wfEntry] at h
  exact h

theorem blockedBelow_cons_ne (igs : List (PyPath → Bool)) (p : PyPath)
    (e : FSEntry) (rest : List FSEntry) (c0 : String) (rel0 : List String)
    (h : entryName e ≠ c0) :
    blockedBelow igs p (e :: rest) (c0 :: rel0)
      = blockedBelow igs p rest (c0 :: rel0) := by
  rw [blockedBelow, blockedBelow]
  cases e with
  | file n => rfl
  | dir n g ch =>
      rw [entryName] at h
      rw [show findDir (FSEntry.dir n g ch :: rest) c0 = findDir rest c0 from by
        rw [findDir, if_neg h]]

theorem recordsQ_notBlocked (q : PyPath) :
    ∀ (igs : List (PyPath → Bool)) (p : PyPath) (es : List FSEntry),
      wfEntries es = true →
      recordsQ igs p es q = true →
      blockedBelow igs p es (q.comps.drop p.comps.length) = false := by
  intro igs p es
  induction igs, p, es, q using recordsQ.induct with
  | case1 igs p q =>
      intro hwf h
      simp [recordsQ] at h
  | case2 igs p e rest q ihm ihr =>
      intro hwf h
      obtain ⟨hwe, hwrest, hname⟩ := wfEntries_parts e rest hwf
      cases e with
      | file n =>
          simp only [recordsQ, Bool.or_eq_true, Bool.and_eq_true,
            beq_iff_eq, Bool.not_eq_true'] at h
          rcases h with ⟨⟨h1, _⟩, hany⟩ | h1
          · have hdrop : q.comps.drop p.comps.length = [n] := by
              rw [h1]
              show ((p.comps ++ [n]).drop p.comps.length) = [n]
              exact List.drop_left _ _
            rw [hdrop, blockedBelow]
            rw [show (igs.any fun ig => ig (p.child n)) = false from hany]
            rw [Bool.false_or]
            cases hfd : findDir (FSEntry.file n :: rest) n with
            | none => rfl
            | some pr =>
                obtain ⟨g2, ch2⟩ := pr
                rfl
          · obtain ⟨c0, rel0, hdrop, hcm, _⟩ := recordsQ_head q igs p rest h1
            rw [hdrop]
            rw [blockedBelow_cons_ne igs p _ rest c0 rel0
              (by rw [entryName]; intro hcontra; rw [hcontra] at hname; exact hname hcm)]
            rw [← hdrop]
            exact ihr hwrest h1
      | dir n g ch =>
          simp only at ihm
          simp only [recordsQ, Bool.or_eq_true, Bool.and_eq_true,
            Bool.not_eq_true'] at h
          rcases h with ⟨hany, h1⟩ | h1
          · have hpar := recordsQ_below q (igs ++ g.toList) (p.child n) ch h1
            obtain ⟨rel2, hrel⟩ := (parentOf_parts _ _ hpar).2.1
            have hdrop : q.comps.drop p.comps.length = n :: rel2 := by
              rw [← hrel]
              show ((p.comps ++ [n]) ++ rel2).drop p.comps.length = n :: rel2
              rw [List.append_assoc]
              show (p.comps ++ ([n] ++ rel2)).drop p.comps.length = n :: rel2
              exact List.drop_left _ _
            have hdrop2 : q.comps.drop (p.child n).comps.length = rel2 := by
              rw [← hrel]
              show (((p.child n).comps) ++ rel2).drop (p.child n).comps.length
                = rel2
              exact List.drop_left _ _
            rw [hdrop, blockedBelow]
            rw [show (igs.any fun ig => ig (p.child n)) = false from hany]
            rw [Bool.false_or]
            rw [show findDir (FSEntry.dir n g ch :: rest) n = some (g, ch) from by
              rw [findDir, if_pos rfl]]
            have := ihm (wfEntry_dir n g ch hwe) h1
            rw [hdrop2] at this
            exact this
          · obtain ⟨c0, rel0, hdrop, hcm, _⟩ := recordsQ_head q igs p rest h1
            rw [hdrop]
            rw [blockedBelow_cons_ne igs p _ rest c0 rel0
              (by rw [entryName]; intro hcontra; rw [hcontra] at hname; exact hname hcm)]
            rw [← hdrop]
            exact ihr hwrest h1

theorem recordsQ_congr_outside (q : PyPath) (igs : List (PyPath → Bool))
    (p : PyPath) (n : String) (g g2 : Option (PyPath → Bool))
    (ch : List FSEntry) (hout : PyPath.isParentOf (p.child n) q = false) :
    ∀ (pre post : List FSEntry),
      recordsQ igs p (pre ++ FSEntry.dir n g ch :: post) q
        = recordsQ igs p (pre ++ FSEntry.dir n g2 ch :: post) q := by
  have hsub : ∀ (gx : Option (PyPath → Bool)),
      recordsQ (igs ++ gx.toList) (p.child n) ch q = false := by
    intro gx
    cases hq : recordsQ (igs ++ gx.toList) (p.child n) ch q
    · rfl
    · have := recordsQ_below q _ _ _ hq
      rw [this] at hout
      cases hout
  intro pre
  induction pre with
  | nil =>
      intro post
      simp only [List.nil_append, recordsQ]
      rw [hsub g, hsub g2]
  | cons e pre2 ih =>
      intro post
      cases e with
      | file m =>
          simp only [List.cons_append, recordsQ]
          rw [ih post]
      | dir m gm chm =>
          simp only [List.cons_append, recordsQ]
          rw [ih post]


/-- C6: during a `PathGatherer.gather` walk, an entry named `.git` or
`.hg`, or matched by an applicable ignore rule — one of the rules built by
`gather` (including `.git/info/exclude` at the root) or the parsed
`.gitignore` of the entry's directory or of an ancestor directory within
the walk — is neither descended into nor recorded, so every file in the
resulting `python_files` lies strictly below the root, is not blocked by
any applicable rule, and has no `.git`/`.hg` component; and the
`.gitignore` of a subdirectory affects only that subdirectory's subtree:
replacing it changes nothing about the recording of files outside the
subtree. -/
theorem panthera_scan_ignore_rules :
    (∀ (initExists : PyPath → Bool) (selector : List String) (root : PyPath)
        (rootExclude gi : Option (PyPath → Bool)) (children : List FSEntry)
        (st : GatherState) (q : PyPath),
        wfEntries children = true →
        q ∈ (scanDir initExists selector root gi children
              (gatherIgnores rootExclude) st).pythonFiles →
        q ∉ st.pythonFiles →
        PyPath.isParentOf root q = true ∧
        blockedBelow (gatherIgnores rootExclude ++ gi.toList) root children
            (q.comps.drop root.comps.length) = false ∧
        (∀ c ∈ q.comps.drop root.comps.length, c ≠ ".git" ∧ c ≠ ".hg")) ∧
    (∀ (initExists : PyPath → Bool) (selector : List String) (p : PyPath)
        (igs : List (PyPath → Bool)) (pre : List FSEntry) (n : String)
        (g g2 : Option (PyPath → Bool)) (ch post : List FSEntry)
        (st : GatherState) (q : PyPath),
        PyPath.isParentOf (p.child n) q = false →
        (q ∈ (scanChildren initExists selector p igs
              (pre ++ FSEntry.dir n g ch :: post) st).pythonFiles ↔
          q ∈ (scanChildren initExists selector p igs
              (pre ++ FSEntry.dir n g2 ch :: post) st).pythonFiles)) := by
  constructor
  · intro initExists selector root rootExclude gi children st q hwf hmem hnot
    unfold scanDir at hmem
    rw [mem_scanChildren_files, potentialStep_pythonFiles] at hmem
    rcases hmem with h | h
    · exact absurd h hnot
    · refine ⟨recordsQ_below q _ _ _ h,
        recordsQ_notBlocked q _ _ _ hwf h,
        recordsQ_clean q _ _ _ ?_ h⟩
      simp [gatherIgnores]
  · intro initExists selector p igs pre n g g2 ch post st q hout
    rw [mem_scanChildren_files, mem_scanChildren_files,
      recordsQ_congr_outside q igs p n g g2 ch hout pre post]


/-- Witness for C6 on a concrete tree: `/repo/src/a.py` is recorded, lies
below the root, is unblocked, and its components avoid `.git`/`.hg`; and
replacing the `.gitignore` of the sibling directory `build` does not
change whether `/repo/src/a.py` is recorded. -/
theorem panthera_scan_ignore_rules_witness :
    PyPath.isParentOf ⟨true, ["repo"]⟩ ⟨true, ["repo", "src", "a.py"]⟩
        = true ∧
    blockedBelow (gatherIgnores none) ⟨true, ["repo"]⟩
        [FSEntry.dir "src" none [FSEntry.file "a.py", FSEntry.file "notes.txt"],
          FSEntry.dir ".git" none [FSEntry.file "c.py"],
          FSEntry.dir "build" (some fun p2 => p2.name == "skip.py")
            [FSEntry.file "skip.py", FSEntry.file "keep.py"]]
        ((⟨true, ["repo", "src", "a.py"]⟩ : PyPath).comps.drop
          (⟨true, ["repo"]⟩ : PyPath).comps.length) = false ∧
    ("src" ≠ ".git" ∧ "src" ≠ ".hg") ∧
    ((⟨true, ["repo", "src", "a.py"]⟩ : PyPath) ∈
        (scanChildren (fun _ => false) ["src"] ⟨true, ["repo"]⟩
          (gatherIgnores none)
          ([FSEntry.dir "src" none
              [FSEntry.file "a.py", FSEntry.file "notes.txt"]] ++
            FSEntry.dir "build" (some fun p2 => p2.name == "skip.py")
              [FSEntry.file "skip.py", FSEntry.file "keep.py"] :: [])
          ⟨[], [], [], []⟩).pythonFiles ↔
      (⟨true, ["repo", "src", "a.py"]⟩ : PyPath) ∈
        (scanChildren (fun _ => false) ["src"] ⟨true, ["repo"]⟩
          (gatherIgnores none)
          ([FSEntry.dir "src" none
              [FSEntry.file "a.py", FSEntry.file "notes.txt"]] ++
            FSEntry.dir "build" none
              [FSEntry.file "skip.py", FSEntry.file "keep.py"] :: [])
          ⟨[], [], [], []⟩).pythonFiles) := by
  have hwf : wfEntries
      [FSEntry.dir "src" none [FSEntry.file "a.py", FSEntry.file "notes.txt"],
        FSEntry.dir ".git" none [FSEntry.file "c.py"],
        FSEntry.dir "build" (some fun p2 => p2.name == "skip.py")
          [FSEntry.file "skip.py", FSEntry.file "keep.py"]] = true := by
    simp +decide [wfEntries, wfAll, wfEntry, entryName]
  have hmem : (⟨true, ["repo", "src", "a.py"]⟩ : PyPath) ∈
      (scanDir (fun _ => false) ["src"] ⟨true, ["repo"]⟩ none
        [FSEntry.dir "src" none [FSEntry.file "a.py", FSEntry.file "notes.txt"],
          FSEntry.dir ".git" none [FSEntry.file "c.py"],
          FSEntry.dir "build" (some fun p2 => p2.name == "skip.py")
            [FSEntry.file "skip.py", FSEntry.file "keep.py"]]
        (gatherIgnores none) ⟨[], [], [], []⟩).pythonFiles := by
    simp +decide [scanDir, scanChildren, gatherIgnores, builtinIgnore,
      potentialStep, processPythonFile, insertPath, addPath, closestRelative,
      closestStep, PyPath.child, PyPath.name, PyPath.parent, pyEndsWith]
  have h := panthera_scan_ignore_rules.1 (fun _ => false) ["src"]
      ⟨true, ["repo"]⟩ none none
      [FSEntry.dir "src" none [FSEntry.file "a.py", FSEntry.file "notes.txt"],
        FSEntry.dir ".git" none [FSEntry.file "c.py"],
        FSEntry.dir "build" (some fun p2 => p2.name == "skip.py")
          [FSEntry.file "skip.py", FSEntry.file "keep.py"]]
      ⟨[], [], [], []⟩ ⟨true, ["repo", "src", "a.py"]⟩ hwf hmem (by simp)
  have hb := panthera_scan_ignore_rules.2 (fun _ => false) ["src"]
      ⟨true, ["repo"]⟩ (gatherIgnores none)
      [FSEntry.dir "src" none [FSEntry.file "a.py", FSEntry.file "notes.txt"]]
      "build" (some fun p2 => p2.name == "skip.py") none
      [FSEntry.file "skip.py", FSEntry.file "keep.py"] []
      ⟨[], [], [], []⟩ ⟨true, ["repo", "src", "a.py"]⟩ (by decide)
  refine ⟨h.1, ?_, ?_, hb⟩
  · have h2 := h.2.1
    simpa using h2
  · exact h.2.2 "src" (by decide)
